import Mathlib

/-!
# MPTCP path-manager registry (`net/mptcp/mptcp_pm.c`)

A shallow embedding of the path-manager registry: the global list
`mptcp_pm_list`, registration and removal of `struct mptcp_pm_ops`
descriptors, the default policy (front of the list), name resolution with
module autoloading, and the binding of a path manager to a connection.

Conventions of the embedding.

* A pointer to a `struct mptcp_pm_ops` is modelled by the descriptor value
  itself; the field `addr` stands for the address of the object, so that two
  objects with the same contents are still different descriptors. A nullable
  pointer is an `Option`.
* The intrusive list `mptcp_pm_list` is a `List mptcp_pm_ops`, head first.
* The locks and RCU read sections have no effect in this sequential model and
  are left out; `synchronize_rcu` is a no-op here.
* Integer return codes are kept symbolic (`ret.zero` for `0`, `ret.neg e` for
  `-e`), because the numeric errno values are not part of this file.
-/

namespace MptcpPm

/-! ## Data model -/

/-- The error numbers this file returns (negated) to its callers. -/
inductive errno where
  | EPERM
  | ENOENT
  | EEXIST
  | EINVAL
deriving DecidableEq, Repr

/-- An `int` return code of this file: `0` or a negated error number. -/
inductive ret where
  | zero
  | neg (e : errno)
deriving DecidableEq, Repr

/-- The descriptor `struct mptcp_pm_ops`, reduced to the fields this file reads:
`get_local_id` (a nullable function pointer, here the label of the function),
`name` (a NUL-terminated string kept in `char name[MPTCP_PM_NAME_MAX]`) and
`owner` (the module that holds the code; `none` is the null `THIS_MODULE` of
code built into the kernel). `addr` is the address of the object. -/
structure mptcp_pm_ops where
  addr : Nat
  get_local_id : Option Nat
  name : String
  owner : Option Nat
deriving DecidableEq, Repr

/-- Modelled from the spec: the lifecycle counter behind `try_module_get` and
`module_put` (the module loader is not part of this file). A module is either
live or going (in removal), and carries a reference count. -/
structure module where
  live : Bool
  refcnt : Nat
deriving DecidableEq, Repr

/-- The global state this file works on: the list `mptcp_pm_list`, the table of
modules (by module identifier), and the log of the module names handed to
`request_module`, oldest first. -/
structure Kernel where
  mptcp_pm_list : List mptcp_pm_ops
  modules : Nat → module
  requested : List String

/-- What the file takes from its surroundings.

* `CONFIG_MODULES`: whether the `#ifdef CONFIG_MODULES` blocks are compiled in.
* `CONFIG_DEFAULT_MPTCP_PM`: the configured name of the default path manager.
* `MPTCP_PM_NAME_MAX`: the size of the name buffers.
* `capable`: the result of `capable(CAP_NET_ADMIN)` for the calling task.
* `ns_capable`: the result of
  `ns_capable(sock_net(sk)->user_ns, CAP_NET_ADMIN)` for the calling task.
* `modprobe`: the loader hook behind `request_module`: given the module name and
  the current state, the descriptors that the loaded code registers itself with
  (through `mptcp_register_path_manager`), in order; `[]` when nothing is
  loaded. -/
structure Env where
  CONFIG_MODULES : Bool
  CONFIG_DEFAULT_MPTCP_PM : String
  MPTCP_PM_NAME_MAX : Nat
  capable : Bool
  ns_capable : Bool
  modprobe : String → Kernel → List mptcp_pm_ops

/-- The fields of the meta socket (`tcp_sk(meta_sk)`) this file uses: the name
set through the socket option and the flag that says it was set. -/
structure tcp_sock where
  mptcp_pm_name : String
  mptcp_pm_setsockopt : Bool
deriving DecidableEq, Repr

/-- The connection control block `struct mptcp_cb`: its meta socket and the
pointer `pm_ops` to the path manager bound to the connection. -/
structure mptcp_cb where
  meta_tp : tcp_sock
  pm_ops : Option mptcp_pm_ops
deriving DecidableEq, Repr

/-! ## The built-in default path manager -/

/-- The label of the function `mptcp_default_id`. -/
def mptcp_default_id_fn : Nat := 0

/-- The function `mptcp_default_id`: returns 0 whatever it is given. -/
def mptcp_default_id (_family : Nat) : Int := 0

/-- The object `mptcp_pm_default`: named "default", with a non-null
`get_local_id`, owned by `THIS_MODULE` (null for built-in code). -/
def mptcp_pm_default : mptcp_pm_ops :=
  { addr := 0
    get_local_id := some mptcp_default_id_fn
    name := "default"
    owner := none }

/-! ## Module references -/

/-- Modelled from the spec: `try_module_get`, the pin of a lifetime handle. A
null module always succeeds and counts nothing. Otherwise the pin is a
try-increment-if-nonzero that fails once the module is going: on success the
count of that module goes up by one, on failure nothing changes. -/
def try_module_get (mods : Nat → module) : Option Nat → Bool × (Nat → module)
  | none => (true, mods)
  | some m =>
    if (mods m).live && decide ((mods m).refcnt ≠ 0) then
      (true, Function.update mods m { mods m with refcnt := (mods m).refcnt + 1 })
    else
      (false, mods)

/-- Modelled from the spec: `module_put`, the release of a pin. A null module
counts nothing; otherwise the count of that module goes down by one (and stays
at zero when it is already zero). -/
def module_put (mods : Nat → module) : Option Nat → (Nat → module)
  | none => mods
  | some m => Function.update mods m { mods m with refcnt := (mods m).refcnt - 1 }

/-! ## List primitives -/

/-- The call `list_move(&pm->list, &mptcp_pm_list)`: unlink the entry and link it
again right after the list head. -/
def list_move (pm : mptcp_pm_ops) (l : List mptcp_pm_ops) : List mptcp_pm_ops :=
  pm :: l.erase pm

/-- The call `strncpy(dst, src, n)` on a source that is a NUL-terminated string:
the first `n` characters of the source. -/
def strncpy (src : String) (n : Nat) : String :=
  ⟨src.data.take n⟩

/-! ## The registry -/

/-- The function `mptcp_pm_find`: the first entry of the list, in list order,
whose name compares equal (`strcmp(e->name, name) == 0`), or `none` (NULL). -/
def mptcp_pm_find (k : Kernel) (name : String) : Option mptcp_pm_ops :=
  k.mptcp_pm_list.find? (fun e => decide (e.name = name))

/-- The function `mptcp_register_path_manager`. -/
def mptcp_register_path_manager (k : Kernel) (pm : mptcp_pm_ops) : ret × Kernel :=
  if pm.get_local_id.isNone then
    (ret.neg errno.EINVAL, k)
  else if (mptcp_pm_find k pm.name).isSome then
    (ret.neg errno.EEXIST, k)
  else
    (ret.zero, { k with mptcp_pm_list := k.mptcp_pm_list ++ [pm] })

/-- The function `mptcp_unregister_path_manager`: `list_del_rcu(&pm->list)`,
then `synchronize_rcu()`, the wait for the readers that were inside an RCU read
section when the entry was unlinked; between the calls of a sequential run no
reader is inside one, so the wait ends at once. The function reads no reference
count. Unlinking an object that is not linked in the list is outside the
defined behaviour of the C code; the model returns `none` there. -/
def mptcp_unregister_path_manager (k : Kernel) (pm : mptcp_pm_ops) : Option Kernel :=
  if pm ∈ k.mptcp_pm_list then
    some { k with mptcp_pm_list := k.mptcp_pm_list.erase pm }
  else
    none

/-- The function `mptcp_get_default_path_manager`: the name of the first entry,
copied with `strncpy(name, pm->name, MPTCP_PM_NAME_MAX)`. On the empty list the
code stops at `BUG_ON`; the model returns `none`. -/
def mptcp_get_default_path_manager (env : Env) (k : Kernel) : Option String :=
  match k.mptcp_pm_list with
  | [] => none
  | pm :: _ => some (strncpy pm.name env.MPTCP_PM_NAME_MAX)

/-- The call `request_module("mptcp_%s", name)`: the module name is logged and
every descriptor the loader brings in registers itself through
`mptcp_register_path_manager`. -/
def request_module (env : Env) (k : Kernel) (name : String) : Kernel :=
  let k1 := (env.modprobe ("mptcp_" ++ name) k).foldl
    (fun s pm => (mptcp_register_path_manager s pm).2) k
  { k1 with requested := k.requested ++ ["mptcp_" ++ name] }

/-- The function `mptcp_set_default_path_manager`. -/
def mptcp_set_default_path_manager (env : Env) (k : Kernel) (name : String) :
    ret × Kernel :=
  let pm := mptcp_pm_find k name
  let k1 := if env.CONFIG_MODULES && (pm.isNone && env.capable) then
      request_module env k name else k
  let pm1 := if env.CONFIG_MODULES && (pm.isNone && env.capable) then
      mptcp_pm_find k1 name else pm
  match pm1 with
  | some p => (ret.zero, { k1 with mptcp_pm_list := list_move p k1.mptcp_pm_list })
  | none => (ret.neg errno.ENOENT, k1)

/-- The function `__mptcp_pm_find_autoload`. -/
def __mptcp_pm_find_autoload (env : Env) (k : Kernel) (name : String) :
    Option mptcp_pm_ops × Kernel :=
  let pm := mptcp_pm_find k name
  if env.CONFIG_MODULES && (pm.isNone && env.capable) then
    let k1 := request_module env k name
    (mptcp_pm_find k1 name, k1)
  else
    (pm, k)

/-- The loop `list_for_each_entry_rcu` of `mptcp_init_path_manager`: the first
entry, in list order, whose `try_module_get` succeeds, with the module table
after that pin; `none` when the loop runs off the end of the list. -/
def init_loop (mods : Nat → module) :
    List mptcp_pm_ops → Option (mptcp_pm_ops × (Nat → module))
  | [] => none
  | pm :: rest =>
    if (try_module_get mods pm.owner).1 then
      some (pm, (try_module_get mods pm.owner).2)
    else
      init_loop mods rest

/-- The part of `mptcp_init_path_manager` from the loop on: bind the first entry
that can be pinned; when there is none, `pm_ops` keeps its value. -/
def init_fallback (k : Kernel) (mpcb : mptcp_cb) : Kernel × mptcp_cb :=
  match init_loop k.modules k.mptcp_pm_list with
  | some (pm, mods) => ({ k with modules := mods }, { mpcb with pm_ops := some pm })
  | none => (k, mpcb)

/-- The function `mptcp_init_path_manager`. -/
def mptcp_init_path_manager (env : Env) (k : Kernel) (mpcb : mptcp_cb) :
    Kernel × mptcp_cb :=
  if mpcb.meta_tp.mptcp_pm_setsockopt then
    match __mptcp_pm_find_autoload env k mpcb.meta_tp.mptcp_pm_name with
    | (some pm, k1) =>
      if (try_module_get k1.modules pm.owner).1 then
        ({ k1 with modules := (try_module_get k1.modules pm.owner).2 },
          { mpcb with pm_ops := some pm })
      else
        init_fallback k1 mpcb
    | (none, k1) => init_fallback k1 mpcb
  else
    init_fallback k mpcb

/-- The function `mptcp_set_path_manager`; `mpcb` is the connection of the socket
`sk`, whose `tcp_sk(sk)` is `mpcb.meta_tp`. The name is a NUL-terminated string
that fits the buffer `mptcp_pm_name` (the socket-option caller bounds it), so
`strcpy` stores it whole. -/
def mptcp_set_path_manager (env : Env) (k : Kernel) (mpcb : mptcp_cb) (name : String) :
    ret × Kernel × mptcp_cb :=
  match __mptcp_pm_find_autoload env k name with
  | (none, k1) => (ret.neg errno.ENOENT, k1, mpcb)
  | (some _, k1) =>
    if !env.ns_capable then
      (ret.neg errno.EPERM, k1, mpcb)
    else
      (ret.zero, k1,
        { mpcb with meta_tp := { mptcp_pm_name := name, mptcp_pm_setsockopt := true } })

/-- The function `mptcp_cleanup_path_manager`: `module_put(mpcb->pm_ops->owner)`.
With a null `pm_ops` the code dereferences NULL; the model returns `none`. -/
def mptcp_cleanup_path_manager (k : Kernel) (mpcb : mptcp_cb) : Option Kernel :=
  match mpcb.pm_ops with
  | none => none
  | some pm => some { k with modules := module_put k.modules pm.owner }

/-- The function `mptcp_fallback_default`. With no entry named "default" in the
list the code dereferences NULL; the model returns `none`. -/
def mptcp_fallback_default (k : Kernel) (mpcb : mptcp_cb) : Option (Kernel × mptcp_cb) :=
  match mptcp_cleanup_path_manager k mpcb with
  | none => none
  | some k1 =>
    match mptcp_pm_find k1 "default" with
    | none => none
    | some pm =>
      some ({ k1 with modules := (try_module_get k1.modules pm.owner).2 },
        { mpcb with pm_ops := some pm })

/-- The function `mptcp_path_manager_default`, run once at boot. -/
def mptcp_path_manager_default (env : Env) (k : Kernel) : ret × Kernel :=
  mptcp_set_default_path_manager env k env.CONFIG_DEFAULT_MPTCP_PM

/-! ## Sequences of registry calls -/

/-- One call into the registry. `set_default` carries the surroundings of its
caller (capability, loader). -/
inductive Op where
  | register (pm : mptcp_pm_ops)
  | unregister (pm : mptcp_pm_ops)
  | set_default (env : Env) (name : String)

/-- The state after one call; `none` when the call is outside the defined
behaviour (removal of a descriptor that is not registered). -/
def step (k : Kernel) : Op → Option Kernel
  | Op.register pm => some (mptcp_register_path_manager k pm).2
  | Op.unregister pm => mptcp_unregister_path_manager k pm
  | Op.set_default env name => some (mptcp_set_default_path_manager env k name).2

/-- The state after a sequence of calls, first call first. -/
def run (k : Kernel) : List Op → Option Kernel
  | [] => some k
  | op :: ops => (step k op).bind (fun k1 => run k1 ops)

/-- Whether a call removes the built-in default path manager. -/
def Op.removes_default : Op → Bool
  | Op.unregister pm => decide (pm = mptcp_pm_default)
  | _ => false

/-! ## Sample states -/

/-- The store with no entry, every module live with one base reference, and an
empty loader log. -/
def empty_kernel : Kernel :=
  { mptcp_pm_list := []
    modules := fun _ => { live := true, refcnt := 1 }
    requested := [] }

/-- A path manager named "A", owned by module 1. -/
def pm_A : mptcp_pm_ops :=
  { addr := 1, get_local_id := some 1, name := "A", owner := some 1 }

/-- A path manager named "B", owned by module 2. -/
def pm_B : mptcp_pm_ops :=
  { addr := 2, get_local_id := some 2, name := "B", owner := some 2 }

/-- Surroundings of an unprivileged caller, with a loader that loads nothing. -/
def env_user : Env :=
  { CONFIG_MODULES := true
    CONFIG_DEFAULT_MPTCP_PM := "fullmesh"
    MPTCP_PM_NAME_MAX := 16
    capable := false
    ns_capable := false
    modprobe := fun _ _ => [] }

/-- Surroundings of a privileged caller, with a loader that loads nothing. -/
def env_admin : Env :=
  { env_user with capable := true, ns_capable := true }

/-- The store after registering "A" and then "B". -/
def kernel_AB : Kernel :=
  { empty_kernel with mptcp_pm_list := [pm_A, pm_B] }

/-- The store with "B" in front of the built-in default path manager. -/
def kernel_B_default : Kernel :=
  { empty_kernel with mptcp_pm_list := [pm_B, mptcp_pm_default] }

/-- A fresh connection: no socket option set, no path manager bound. -/
def conn_plain : mptcp_cb :=
  { meta_tp := { mptcp_pm_name := "", mptcp_pm_setsockopt := false }, pm_ops := none }

/-- A connection whose socket option names "C". -/
def conn_C : mptcp_cb :=
  { meta_tp := { mptcp_pm_name := "C", mptcp_pm_setsockopt := true }, pm_ops := none }

/-- A connection whose socket option names "B". -/
def conn_B : mptcp_cb :=
  { meta_tp := { mptcp_pm_name := "B", mptcp_pm_setsockopt := true }, pm_ops := none }

/-- The store with "B" in front of the built-in default path manager, while
module 2, the owner of "B", is going. -/
def kernel_B_going : Kernel :=
  { mptcp_pm_list := [pm_B, mptcp_pm_default]
    modules := fun m => { live := decide (m ≠ 2), refcnt := 1 }
    requested := [] }

/-- The names of the store are pairwise different. -/
def unique_names (k : Kernel) : Prop :=
  (k.mptcp_pm_list.map mptcp_pm_ops.name).Nodup

/-! ## Connections over time -/

/-- The reference count of module `m`. -/
def module_refcnt (m : Nat) (k : Kernel) : Nat :=
  (k.modules m).refcnt

/-- Whether the path manager bound to a connection is owned by module `m`. -/
def pinned_by (m : Nat) (c : mptcp_cb) : Bool :=
  match c.pm_ops with
  | some pm => decide (pm.owner = some m)
  | none => false

/-- The number of live connections whose bound path manager is owned by
module `m`. -/
def pins (m : Nat) (live : List mptcp_cb) : Nat :=
  live.countP (pinned_by m)

/-- One event in the life of the registry and its connections: a new connection
(with the socket-option fields `tp`, no path manager bound yet) is set up with
`mptcp_init_path_manager`; a live connection is torn down with
`mptcp_cleanup_path_manager`; or a registry call is made. -/
inductive ConnOp where
  | bind (env : Env) (tp : tcp_sock)
  | unbind (c : mptcp_cb)
  | registry (op : Op)

/-- The state (registry state and live connections) after one event; `none`
when the event is outside the defined behaviour (tear-down of a connection that
is not live or has no path manager, removal of an unregistered descriptor). -/
def conn_step (s : Kernel × List mptcp_cb) : ConnOp → Option (Kernel × List mptcp_cb)
  | ConnOp.bind env tp =>
    some ((mptcp_init_path_manager env s.1 { meta_tp := tp, pm_ops := none }).1,
      s.2 ++ [(mptcp_init_path_manager env s.1 { meta_tp := tp, pm_ops := none }).2])
  | ConnOp.unbind c =>
    if c ∈ s.2 then
      match mptcp_cleanup_path_manager s.1 c with
      | some k1 => some (k1, s.2.erase c)
      | none => none
    else
      none
  | ConnOp.registry op =>
    match step s.1 op with
    | some k1 => some (k1, s.2)
    | none => none

/-- The state after a sequence of events, first event first. -/
def conn_run (s : Kernel × List mptcp_cb) : List ConnOp → Option (Kernel × List mptcp_cb)
  | [] => some s
  | op :: ops => (conn_step s op).bind (fun s1 => conn_run s1 ops)

/-- The balance of pins: the count of every module is its base count plus the
number of live connections bound to a path manager it owns, and no module has
changed between live and going. -/
def balanced (base : Nat → module) (s : Kernel × List mptcp_cb) : Prop :=
  ∀ m, (s.1.modules m).refcnt = (base m).refcnt + pins m s.2 ∧
    (s.1.modules m).live = (base m).live

/-! ## More sample states -/

/-- Surroundings of a privileged caller in a build without module support. -/
def env_nomod : Env :=
  { env_admin with CONFIG_MODULES := false }

/-- A path manager named "default" that is not the built-in one, owned by
module 3. -/
def pm_D : mptcp_pm_ops :=
  { addr := 3, get_local_id := some 3, name := "default", owner := some 3 }

/-- A descriptor with a null `get_local_id`. -/
def pm_null : mptcp_pm_ops :=
  { addr := 4, get_local_id := none, name := "N", owner := some 4 }

/-- The store holding `pm_D` alone, while module 3, its owner, is going. -/
def kernel_D_going : Kernel :=
  { mptcp_pm_list := [pm_D]
    modules := fun m => { live := decide (m ≠ 3), refcnt := 1 }
    requested := [] }

/-- A connection bound to "B", with no socket option set. -/
def conn_bound_B : mptcp_cb :=
  { meta_tp := { mptcp_pm_name := "", mptcp_pm_setsockopt := false }, pm_ops := some pm_B }

/-! ## Lemmas on lookup -/

theorem mptcp_pm_find_eq_none_iff (k : Kernel) (name : String) :
    mptcp_pm_find k name = none ↔ ∀ e ∈ k.mptcp_pm_list, e.name ≠ name := by
  simp [mptcp_pm_find, List.find?_eq_none]

theorem mptcp_pm_find_isSome_iff (k : Kernel) (name : String) :
    (mptcp_pm_find k name).isSome = true ↔ ∃ e ∈ k.mptcp_pm_list, e.name = name := by
  simp [mptcp_pm_find, List.find?_isSome]

theorem mptcp_pm_find_mem {k : Kernel} {name : String} {pm : mptcp_pm_ops}
    (h : mptcp_pm_find k name = some pm) : pm ∈ k.mptcp_pm_list ∧ pm.name = name := by
  unfold mptcp_pm_find at h
  refine ⟨List.mem_of_find?_eq_some h, ?_⟩
  simpa using List.find?_some h

theorem mptcp_pm_find_split {k : Kernel} {name : String} {pm : mptcp_pm_ops}
    (h : mptcp_pm_find k name = some pm) :
    ∃ l1 l2, k.mptcp_pm_list = l1 ++ pm :: l2 ∧ ∀ x ∈ l1, x.name ≠ name := by
  unfold mptcp_pm_find at h
  obtain ⟨_, l1, l2, hl, hn⟩ := List.find?_eq_some.mp h
  exact ⟨l1, l2, hl, by simpa using hn⟩

/-! ## Lemmas on registration and loading -/

theorem register_list (k : Kernel) (pm : mptcp_pm_ops) :
    (mptcp_register_path_manager k pm).2.mptcp_pm_list = k.mptcp_pm_list ∨
      (mptcp_pm_find k pm.name = none ∧
        (mptcp_register_path_manager k pm).2.mptcp_pm_list = k.mptcp_pm_list ++ [pm]) := by
  unfold mptcp_register_path_manager
  split
  · exact Or.inl rfl
  · split
    · exact Or.inl rfl
    · rename_i h
      refine Or.inr ⟨?_, rfl⟩
      cases hf : mptcp_pm_find k pm.name with
      | none => rfl
      | some p => simp [hf] at h

theorem register_modules (k : Kernel) (pm : mptcp_pm_ops) :
    (mptcp_register_path_manager k pm).2.modules = k.modules := by
  unfold mptcp_register_path_manager
  split
  · rfl
  · split <;> rfl

theorem register_requested (k : Kernel) (pm : mptcp_pm_ops) :
    (mptcp_register_path_manager k pm).2.requested = k.requested := by
  unfold mptcp_register_path_manager
  split
  · rfl
  · split <;> rfl

theorem register_unique (k : Kernel) (pm : mptcp_pm_ops) (h : unique_names k) :
    unique_names (mptcp_register_path_manager k pm).2 := by
  unfold unique_names at *
  rcases register_list k pm with h1 | ⟨hf, h1⟩
  · rw [h1]; exact h
  · rw [h1, List.map_append, List.nodup_append]
    refine ⟨h, by simp, ?_⟩
    have hn := (mptcp_pm_find_eq_none_iff k pm.name).mp hf
    intro a ha hb
    simp at hb
    subst hb
    obtain ⟨e, he, hea⟩ := List.mem_map.mp ha
    exact hn e he hea

theorem register_extends (k : Kernel) (pm : mptcp_pm_ops) :
    k.mptcp_pm_list <+: (mptcp_register_path_manager k pm).2.mptcp_pm_list := by
  rcases register_list k pm with h1 | ⟨_, h1⟩
  · rw [h1]
  · rw [h1]; exact List.prefix_append _ _

theorem foldl_register_unique (l : List mptcp_pm_ops) (k : Kernel) (h : unique_names k) :
    unique_names (l.foldl (fun s pm => (mptcp_register_path_manager s pm).2) k) := by
  induction l generalizing k with
  | nil => exact h
  | cons a t ih => exact ih _ (register_unique k a h)

theorem foldl_register_extends (l : List mptcp_pm_ops) (k : Kernel) :
    k.mptcp_pm_list <+:
      (l.foldl (fun s pm => (mptcp_register_path_manager s pm).2) k).mptcp_pm_list := by
  induction l generalizing k with
  | nil => exact List.prefix_refl _
  | cons a t ih => exact (register_extends k a).trans (ih _)

theorem foldl_register_modules (l : List mptcp_pm_ops) (k : Kernel) :
    (l.foldl (fun s pm => (mptcp_register_path_manager s pm).2) k).modules = k.modules := by
  induction l generalizing k with
  | nil => rfl
  | cons a t ih => exact (ih _).trans (register_modules k a)

theorem request_module_unique (env : Env) (k : Kernel) (name : String)
    (h : unique_names k) : unique_names (request_module env k name) :=
  foldl_register_unique _ k h

theorem request_module_extends (env : Env) (k : Kernel) (name : String) :
    k.mptcp_pm_list <+: (request_module env k name).mptcp_pm_list :=
  foldl_register_extends _ k

theorem request_module_modules (env : Env) (k : Kernel) (name : String) :
    (request_module env k name).modules = k.modules :=
  foldl_register_modules _ k

theorem request_module_nothing (env : Env) (k : Kernel) (name : String)
    (h : env.modprobe ("mptcp_" ++ name) k = []) :
    (request_module env k name).mptcp_pm_list = k.mptcp_pm_list := by
  simp [request_module, h]

/-! ## Lemmas on removal, promotion and sequences of calls -/

theorem unregister_unique {k k1 : Kernel} {pm : mptcp_pm_ops}
    (h : unique_names k) (hu : mptcp_unregister_path_manager k pm = some k1) :
    unique_names k1 := by
  unfold mptcp_unregister_path_manager at hu
  split at hu
  · cases hu
    exact List.Nodup.sublist ((List.erase_sublist pm k.mptcp_pm_list).map _) h
  · cases hu

theorem list_move_unique {pm : mptcp_pm_ops} {l : List mptcp_pm_ops} (hm : pm ∈ l)
    (h : (l.map mptcp_pm_ops.name).Nodup) :
    ((list_move pm l).map mptcp_pm_ops.name).Nodup :=
  (((List.perm_cons_erase hm).map mptcp_pm_ops.name).nodup_iff).mp h

theorem set_default_unique (env : Env) (k : Kernel) (name : String) (h : unique_names k) :
    unique_names (mptcp_set_default_path_manager env k name).2 := by
  unfold mptcp_set_default_path_manager
  by_cases hc : (env.CONFIG_MODULES && ((mptcp_pm_find k name).isNone && env.capable)) = true
  · simp only [hc, if_true]
    have hu := request_module_unique env k name h
    cases hf : mptcp_pm_find (request_module env k name) name with
    | none => exact hu
    | some p => exact list_move_unique (mptcp_pm_find_mem hf).1 hu
  · simp only [hc, if_false]
    cases hf : mptcp_pm_find k name with
    | none => exact h
    | some p => exact list_move_unique (mptcp_pm_find_mem hf).1 h

theorem set_default_mem (env : Env) (k : Kernel) (name : String) (pm : mptcp_pm_ops)
    (h : pm ∈ k.mptcp_pm_list) :
    pm ∈ (mptcp_set_default_path_manager env k name).2.mptcp_pm_list := by
  unfold mptcp_set_default_path_manager
  by_cases hc : (env.CONFIG_MODULES && ((mptcp_pm_find k name).isNone && env.capable)) = true
  · simp only [hc, if_true]
    have hu := (request_module_extends env k name).subset h
    cases hf : mptcp_pm_find (request_module env k name) name with
    | none => exact hu
    | some p => exact (List.perm_cons_erase (mptcp_pm_find_mem hf).1).subset hu
  · simp only [hc, if_false]
    cases hf : mptcp_pm_find k name with
    | none => exact h
    | some p => exact (List.perm_cons_erase (mptcp_pm_find_mem hf).1).subset h

theorem step_unique {k k1 : Kernel} {op : Op} (h : unique_names k)
    (hs : step k op = some k1) : unique_names k1 := by
  cases op with
  | register pm => cases hs; exact register_unique k pm h
  | unregister pm => exact unregister_unique h hs
  | set_default env name => cases hs; exact set_default_unique env k name h

theorem run_unique (ops : List Op) {k k1 : Kernel} (h : unique_names k)
    (hr : run k ops = some k1) : unique_names k1 := by
  induction ops generalizing k with
  | nil => cases hr; exact h
  | cons op ops ih =>
    unfold run at hr
    cases hs : step k op with
    | none => simp [hs] at hr
    | some k2 =>
      rw [hs] at hr
      exact ih (step_unique h hs) hr

theorem step_keeps_default {k k1 : Kernel} {op : Op}
    (h : mptcp_pm_default ∈ k.mptcp_pm_list) (hop : op.removes_default = false)
    (hs : step k op = some k1) : mptcp_pm_default ∈ k1.mptcp_pm_list := by
  cases op with
  | register pm => cases hs; exact (register_extends k pm).subset h
  | unregister pm =>
    have hne : mptcp_pm_default ≠ pm := by
      intro he
      simp [Op.removes_default, he] at hop
    simp only [step, mptcp_unregister_path_manager] at hs
    split at hs
    · cases hs
      exact (List.mem_erase_of_ne hne).mpr h
    · cases hs
  | set_default env name => cases hs; exact set_default_mem env k name _ h

/-! ## Registration: C1 -/

/-- C1. For every store and every descriptor with a non-null `get_local_id`,
`mptcp_register_path_manager` returns `-EEXIST` and leaves the state unchanged
if and only if some entry of the store already has the same name (the return
code alone is `-EEXIST` exactly then); otherwise it returns `0` and the new
store is the old store with the descriptor appended as its last element, the
rest of the state being unchanged. -/
theorem C1_register_contract (k : Kernel) (pm : mptcp_pm_ops)
    (hsel : pm.get_local_id ≠ none) :
    (mptcp_register_path_manager k pm = (ret.neg errno.EEXIST, k) ↔
        ∃ e ∈ k.mptcp_pm_list, e.name = pm.name) ∧
      ((mptcp_register_path_manager k pm).1 = ret.neg errno.EEXIST ↔
        ∃ e ∈ k.mptcp_pm_list, e.name = pm.name) ∧
      ((¬ ∃ e ∈ k.mptcp_pm_list, e.name = pm.name) →
        mptcp_register_path_manager k pm =
          (ret.zero, { k with mptcp_pm_list := k.mptcp_pm_list ++ [pm] })) := by
  have hsel1 : pm.get_local_id.isNone = false := by
    cases hg : pm.get_local_id with
    | none => exact absurd hg hsel
    | some f => rfl
  by_cases hex : ∃ e ∈ k.mptcp_pm_list, e.name = pm.name
  · have hf := (mptcp_pm_find_isSome_iff k pm.name).mpr hex
    have hr : mptcp_register_path_manager k pm = (ret.neg errno.EEXIST, k) := by
      simp [mptcp_register_path_manager, hsel1, hf]
    exact ⟨⟨fun _ => hex, fun _ => hr⟩, ⟨fun _ => hex, fun _ => by rw [hr]⟩,
      fun hn => absurd hex hn⟩
  · have hf : (mptcp_pm_find k pm.name).isSome = false := by
      cases hs : (mptcp_pm_find k pm.name).isSome with
      | false => rfl
      | true => exact absurd ((mptcp_pm_find_isSome_iff k pm.name).mp hs) hex
    have hr : mptcp_register_path_manager k pm =
        (ret.zero, { k with mptcp_pm_list := k.mptcp_pm_list ++ [pm] }) := by
      simp [mptcp_register_path_manager, hsel1, hf]
    refine ⟨⟨fun h => ?_, fun h => absurd h hex⟩, ⟨fun h => ?_, fun h => absurd h hex⟩,
      fun _ => hr⟩
    · rw [hr] at h
      cases (Prod.mk.inj h).1
    · rw [hr] at h
      cases h

/-- The contract of C1 at the store holding "A" and "B" and the descriptor "B". -/
theorem C1_register_contract_witness :
    pm_B.get_local_id ≠ none ∧
      ((mptcp_register_path_manager kernel_AB pm_B = (ret.neg errno.EEXIST, kernel_AB) ↔
          ∃ e ∈ kernel_AB.mptcp_pm_list, e.name = pm_B.name) ∧
        ((mptcp_register_path_manager kernel_AB pm_B).1 = ret.neg errno.EEXIST ↔
          ∃ e ∈ kernel_AB.mptcp_pm_list, e.name = pm_B.name) ∧
        ((¬ ∃ e ∈ kernel_AB.mptcp_pm_list, e.name = pm_B.name) →
          mptcp_register_path_manager kernel_AB pm_B =
            (ret.zero,
              { kernel_AB with mptcp_pm_list := kernel_AB.mptcp_pm_list ++ [pm_B] }))) :=
  ⟨by decide, C1_register_contract kernel_AB pm_B (by decide)⟩

/-! ## Uniqueness of names: C2 -/

/-- C2. Uniqueness: starting from a store with no entry, after every finite
sequence of `mptcp_register_path_manager`, `mptcp_unregister_path_manager` (of
a registered descriptor) and `mptcp_set_default_path_manager` calls, no two
entries of the store have the same name: the list of the names has no
duplicate. -/
theorem C2_uniqueness (k0 k : Kernel) (ops : List Op)
    (hempty : k0.mptcp_pm_list = []) (hrun : run k0 ops = some k) :
    (k.mptcp_pm_list.map mptcp_pm_ops.name).Nodup := by
  have h0 : unique_names k0 := by
    unfold unique_names
    rw [hempty]
    exact List.nodup_nil
  exact run_unique ops h0 hrun

/-- Uniqueness after registering "A", "B" and "B" again, promoting "B", and
removing "A": the store holds "B" alone. -/
theorem C2_uniqueness_witness :
    empty_kernel.mptcp_pm_list = [] ∧
      run empty_kernel [Op.register pm_A, Op.register pm_B, Op.register pm_B,
          Op.set_default env_user "B", Op.unregister pm_A] =
        some { empty_kernel with mptcp_pm_list := [pm_B] } ∧
      (([pm_B] : List mptcp_pm_ops).map mptcp_pm_ops.name).Nodup :=
  ⟨rfl, rfl,
    C2_uniqueness empty_kernel { empty_kernel with mptcp_pm_list := [pm_B] }
      [Op.register pm_A, Op.register pm_B, Op.register pm_B,
        Op.set_default env_user "B", Op.unregister pm_A] rfl rfl⟩

/-! ## The built-in default path manager stays registered: C3 -/

/-- C3, as stated, fails: `mptcp_unregister_path_manager` has no guard for the
built-in default path manager. Registered in the empty store and then
unregistered, it is gone: the store is empty again. -/
theorem C3_counterexample :
    (mptcp_register_path_manager empty_kernel mptcp_pm_default).2.mptcp_pm_list =
        [mptcp_pm_default] ∧
      Option.map Kernel.mptcp_pm_list
        (run (mptcp_register_path_manager empty_kernel mptcp_pm_default).2
          [Op.unregister mptcp_pm_default]) = some [] := by
  decide

/-- C3, amended. Once the built-in default path manager is in the store, it is
still in the store after every sequence of `mptcp_register_path_manager`,
`mptcp_set_default_path_manager` and `mptcp_unregister_path_manager` calls in
which no `mptcp_unregister_path_manager` call is applied to the built-in
default path manager itself. -/
theorem C3_default_stays (k k1 : Kernel) (ops : List Op)
    (hin : mptcp_pm_default ∈ k.mptcp_pm_list)
    (hops : ∀ op ∈ ops, op.removes_default = false)
    (hrun : run k ops = some k1) :
    mptcp_pm_default ∈ k1.mptcp_pm_list := by
  induction ops generalizing k with
  | nil => cases hrun; exact hin
  | cons op ops ih =>
    unfold run at hrun
    cases hs : step k op with
    | none => simp [hs] at hrun
    | some k2 =>
      rw [hs] at hrun
      exact ih k2 (step_keeps_default hin (hops op (List.mem_cons_self _ _)) hs)
        (fun o ho => hops o (List.mem_cons_of_mem _ ho)) hrun

/-- The amended C3 on the store holding "B" and the default: "A" is registered,
"B" is promoted and then removed, and the default is still there. -/
theorem C3_default_stays_witness :
    mptcp_pm_default ∈ kernel_B_default.mptcp_pm_list ∧
      (∀ op ∈ [Op.register pm_A, Op.set_default env_user "B", Op.unregister pm_B],
        op.removes_default = false) ∧
      run kernel_B_default
          [Op.register pm_A, Op.set_default env_user "B", Op.unregister pm_B] =
        some { empty_kernel with mptcp_pm_list := [mptcp_pm_default, pm_A] } ∧
      mptcp_pm_default ∈ [mptcp_pm_default, pm_A] :=
  ⟨by decide, by decide, rfl,
    C3_default_stays kernel_B_default
      { empty_kernel with mptcp_pm_list := [mptcp_pm_default, pm_A] }
      [Op.register pm_A, Op.set_default env_user "B", Op.unregister pm_B]
      (by decide) (by decide) rfl⟩

/-! ## The default policy: C4, C5 -/

theorem strncpy_fits (s : String) (n : Nat) (h : s.length ≤ n) : strncpy s n = s := by
  unfold strncpy
  have h1 : s.data.length ≤ n := h
  rw [List.take_of_length_le h1]

theorem erase_split {e : mptcp_pm_ops} {l1 l2 : List mptcp_pm_ops} (h : e ∉ l1) :
    (l1 ++ e :: l2).erase e = l1 ++ l2 := by
  rw [List.erase_append_right _ h, List.erase_cons_head]

/-- C4. For every store that contains an entry named `n`,
`mptcp_set_default_path_manager` with `n` returns `0` without a call of
`request_module` (the loader log is unchanged), and the resulting store is the
first entry named `n` followed by all other entries in their previous relative
order, the rest of the state being unchanged; `mptcp_get_default_path_manager`
afterwards yields the `strncpy` copy of `n`, which is `n` itself for a name
that fits the name buffer, as every name held in `char name[MPTCP_PM_NAME_MAX]`
does. -/
theorem C4_set_default_promotes (env : Env) (k : Kernel) (n : String)
    (hin : ∃ e ∈ k.mptcp_pm_list, e.name = n) :
    ∃ e l1 l2, k.mptcp_pm_list = l1 ++ e :: l2 ∧ e.name = n ∧
      (∀ x ∈ l1, x.name ≠ n) ∧
      mptcp_set_default_path_manager env k n =
        (ret.zero, { k with mptcp_pm_list := e :: (l1 ++ l2) }) ∧
      (mptcp_set_default_path_manager env k n).2.requested = k.requested ∧
      mptcp_get_default_path_manager env (mptcp_set_default_path_manager env k n).2 =
        some (strncpy n env.MPTCP_PM_NAME_MAX) ∧
      (n.length ≤ env.MPTCP_PM_NAME_MAX →
        mptcp_get_default_path_manager env (mptcp_set_default_path_manager env k n).2 =
          some n) := by
  have hs := (mptcp_pm_find_isSome_iff k n).mpr hin
  cases hf : mptcp_pm_find k n with
  | none => simp [hf] at hs
  | some e =>
    obtain ⟨l1, l2, hl, hn⟩ := mptcp_pm_find_split hf
    have hname := (mptcp_pm_find_mem hf).2
    have hnot : e ∉ l1 := fun hm => hn e hm hname
    have hr : mptcp_set_default_path_manager env k n =
        (ret.zero, { k with mptcp_pm_list := e :: (l1 ++ l2) }) := by
      simp [mptcp_set_default_path_manager, hf, list_move, hl, erase_split hnot]
    refine ⟨e, l1, l2, hl, hname, hn, hr, ?_, ?_, ?_⟩
    · rw [hr]
    · rw [hr]
      simp only [mptcp_get_default_path_manager]
      rw [hname]
    · intro hfit
      rw [hr]
      simp only [mptcp_get_default_path_manager]
      rw [hname, strncpy_fits n _ hfit]

/-- The scenario of C4: "A" then "B" are registered in the empty store, the
default is "A"; after `mptcp_set_default_path_manager` with "B" the default is
"B" and the order is "B", "A". -/
theorem C4_set_default_promotes_witness :
    run empty_kernel [Op.register pm_A, Op.register pm_B] = some kernel_AB ∧
      mptcp_get_default_path_manager env_user kernel_AB = some "A" ∧
      (mptcp_set_default_path_manager env_user kernel_AB "B").2.mptcp_pm_list =
        [pm_B, pm_A] ∧
      mptcp_get_default_path_manager env_user
        (mptcp_set_default_path_manager env_user kernel_AB "B").2 = some "B" ∧
      ∃ e l1 l2, kernel_AB.mptcp_pm_list = l1 ++ e :: l2 ∧ e.name = "B" ∧
        (∀ x ∈ l1, x.name ≠ "B") ∧
        mptcp_set_default_path_manager env_user kernel_AB "B" =
          (ret.zero, { kernel_AB with mptcp_pm_list := e :: (l1 ++ l2) }) ∧
        (mptcp_set_default_path_manager env_user kernel_AB "B").2.requested =
          kernel_AB.requested ∧
        mptcp_get_default_path_manager env_user
          (mptcp_set_default_path_manager env_user kernel_AB "B").2 =
            some (strncpy "B" env_user.MPTCP_PM_NAME_MAX) ∧
        ("B".length ≤ env_user.MPTCP_PM_NAME_MAX →
          mptcp_get_default_path_manager env_user
            (mptcp_set_default_path_manager env_user kernel_AB "B").2 = some "B") :=
  ⟨rfl, by decide, by decide, by decide,
    C4_set_default_promotes env_user kernel_AB "B" ⟨pm_B, by decide, rfl⟩⟩

theorem head_of_extension {l1 l2 : List mptcp_pm_ops} (h : l1 <+: l2) (hne : l1 ≠ []) :
    l2.head? = l1.head? := by
  obtain ⟨t, rfl⟩ := h
  cases l1 with
  | nil => exact absurd rfl hne
  | cons a l => rfl

theorem get_default_of_head (env : Env) {k1 k2 : Kernel}
    (h : k1.mptcp_pm_list.head? = k2.mptcp_pm_list.head?) :
    mptcp_get_default_path_manager env k1 = mptcp_get_default_path_manager env k2 := by
  unfold mptcp_get_default_path_manager
  cases h1 : k1.mptcp_pm_list with
  | nil =>
    cases h2 : k2.mptcp_pm_list with
    | nil => rfl
    | cons b l => simp [h1, h2] at h
  | cons a l =>
    cases h2 : k2.mptcp_pm_list with
    | nil => simp [h1, h2] at h
    | cons b l2 =>
      simp [h1, h2] at h
      simp [h]

/-- C5. For every store with no entry named `n`, if the loader hook, where it
is invoked (modules configured in and a capable caller), does not cause `n` to
be registered, `mptcp_set_default_path_manager` with `n` returns `-ENOENT` and
reorders nothing: the state is the one left by `request_module` when that is
invoked and the original state otherwise, the store is the original store when
the loader loads nothing, and on a non-empty store the front entry and the
name reported by `mptcp_get_default_path_manager` are unchanged. The boot-time
call `mptcp_path_manager_default` is this call with the configured name. -/
theorem C5_set_default_not_found (env : Env) (k : Kernel) (n : String)
    (hno : ∀ e ∈ k.mptcp_pm_list, e.name ≠ n)
    (hload : (env.CONFIG_MODULES && env.capable) = true →
      ∀ e ∈ (request_module env k n).mptcp_pm_list, e.name ≠ n) :
    (mptcp_set_default_path_manager env k n).1 = ret.neg errno.ENOENT ∧
      (mptcp_set_default_path_manager env k n).2 =
        (if env.CONFIG_MODULES && env.capable then request_module env k n else k) ∧
      ((env.CONFIG_MODULES && env.capable) = false →
        mptcp_set_default_path_manager env k n = (ret.neg errno.ENOENT, k)) ∧
      (env.modprobe ("mptcp_" ++ n) k = [] →
        (mptcp_set_default_path_manager env k n).2.mptcp_pm_list = k.mptcp_pm_list) ∧
      (k.mptcp_pm_list ≠ [] →
        (mptcp_set_default_path_manager env k n).2.mptcp_pm_list.head? =
            k.mptcp_pm_list.head? ∧
          mptcp_get_default_path_manager env (mptcp_set_default_path_manager env k n).2 =
            mptcp_get_default_path_manager env k) ∧
      (n = env.CONFIG_DEFAULT_MPTCP_PM →
        mptcp_path_manager_default env k = mptcp_set_default_path_manager env k n) := by
  have hf : mptcp_pm_find k n = none := (mptcp_pm_find_eq_none_iff k n).mpr hno
  have key : mptcp_set_default_path_manager env k n =
      (ret.neg errno.ENOENT,
        if env.CONFIG_MODULES && env.capable then request_module env k n else k) := by
    by_cases hc : (env.CONFIG_MODULES && env.capable) = true
    · have hf1 : mptcp_pm_find (request_module env k n) n = none :=
        (mptcp_pm_find_eq_none_iff _ n).mpr (hload hc)
      simp only [Bool.and_eq_true] at hc
      simp [mptcp_set_default_path_manager, hf, hc.1, hc.2, hf1]
    · have hc1 : (env.CONFIG_MODULES && env.capable) = false := by
        simpa using hc
      unfold mptcp_set_default_path_manager
      simp only [hf, Option.isNone_none, Bool.true_and, hc1]
      simp
  have hpre : k.mptcp_pm_list <+:
      (if env.CONFIG_MODULES && env.capable then request_module env k n
        else k).mptcp_pm_list := by
    split
    · exact request_module_extends env k n
    · exact List.prefix_refl _
  refine ⟨by rw [key], by rw [key], ?_, ?_, ?_, ?_⟩
  · intro hc
    rw [key, hc]
    simp
  · intro hnothing
    rw [key]
    split
    · exact request_module_nothing env k n hnothing
    · rfl
  · intro hne
    rw [key]
    have hh := head_of_extension hpre hne
    exact ⟨hh, get_default_of_head env hh⟩
  · intro hn
    rw [hn]
    rfl

/-- C5 at boot: the store holds "A" and "B", the configured name "fullmesh" is
not registered and the loader loads nothing, for a capable caller: the call
returns `-ENOENT` and "A" stays the default. -/
theorem C5_set_default_not_found_witness :
    (∀ e ∈ kernel_AB.mptcp_pm_list, e.name ≠ "fullmesh") ∧
      ((env_admin.CONFIG_MODULES && env_admin.capable) = true →
        ∀ e ∈ (request_module env_admin kernel_AB "fullmesh").mptcp_pm_list,
          e.name ≠ "fullmesh") ∧
      (mptcp_path_manager_default env_admin kernel_AB).1 = ret.neg errno.ENOENT ∧
      mptcp_get_default_path_manager env_admin
        (mptcp_path_manager_default env_admin kernel_AB).2 = some "A" ∧
      (mptcp_set_default_path_manager env_admin kernel_AB "fullmesh").1 =
        ret.neg errno.ENOENT :=
  ⟨by decide, fun _ => by decide, by decide, by decide,
    (C5_set_default_not_found env_admin kernel_AB "fullmesh" (by decide)
      (fun _ => by decide)).1⟩

/-! ## The socket option: C6, C7 -/

theorem find_autoload_eq (env : Env) (k : Kernel) (name : String) :
    __mptcp_pm_find_autoload env k name =
      if (env.CONFIG_MODULES && ((mptcp_pm_find k name).isNone && env.capable)) = true then
        (mptcp_pm_find (request_module env k name) name, request_module env k name)
      else (mptcp_pm_find k name, k) := rfl

theorem find_autoload_modules (env : Env) (k : Kernel) (name : String) :
    (__mptcp_pm_find_autoload env k name).2.modules = k.modules := by
  rw [find_autoload_eq]
  split
  · exact request_module_modules env k name
  · rfl

theorem find_autoload_extends (env : Env) (k : Kernel) (name : String) :
    k.mptcp_pm_list <+: (__mptcp_pm_find_autoload env k name).2.mptcp_pm_list := by
  rw [find_autoload_eq]
  split
  · exact request_module_extends env k name
  · exact List.prefix_refl _

theorem find_autoload_result (env : Env) (k : Kernel) (name : String) :
    (__mptcp_pm_find_autoload env k name).1 =
      mptcp_pm_find (__mptcp_pm_find_autoload env k name).2 name := by
  rw [find_autoload_eq]
  split <;> rfl

theorem find_autoload_unprivileged (env : Env) (k : Kernel) (name : String)
    (hcap : env.capable = false) :
    __mptcp_pm_find_autoload env k name = (mptcp_pm_find k name, k) := by
  simp [__mptcp_pm_find_autoload, hcap]

/-- C6, as stated, fails: in the store holding "A" and "B" there is no entry
named "C", the caller holds no capability (both checks are false), and
`mptcp_set_path_manager` with "C" returns `-ENOENT`, not `-EPERM`. -/
theorem C6_counterexample :
    mptcp_pm_find kernel_AB "C" = none ∧ env_user.capable = false ∧
      env_user.ns_capable = false ∧
      (mptcp_set_path_manager env_user kernel_AB conn_plain "C").1 =
        ret.neg errno.ENOENT ∧
      (mptcp_set_path_manager env_user kernel_AB conn_plain "C").1 ≠
        ret.neg errno.EPERM := by
  decide

/-- C6, amended. For every store with no entry named `name` and every
connection, `mptcp_set_path_manager` with `name` by a requester for whom
`capable(CAP_NET_ADMIN)` is false returns `-ENOENT`, and leaves the state and
the connection unchanged (whatever the outcome of the `ns_capable` check, which
is not reached). -/
theorem C6_set_override_unregistered (env : Env) (k : Kernel) (mpcb : mptcp_cb)
    (name : String) (hno : ∀ e ∈ k.mptcp_pm_list, e.name ≠ name)
    (hcap : env.capable = false) :
    mptcp_set_path_manager env k mpcb name = (ret.neg errno.ENOENT, k, mpcb) := by
  have hf : mptcp_pm_find k name = none := (mptcp_pm_find_eq_none_iff k name).mpr hno
  unfold mptcp_set_path_manager
  rw [find_autoload_unprivileged env k name hcap, hf]

/-- The amended C6 on the scenario of the specification: "C" is not registered
and the requester is unprivileged. -/
theorem C6_set_override_unregistered_witness :
    (∀ e ∈ kernel_AB.mptcp_pm_list, e.name ≠ "C") ∧ env_user.capable = false ∧
      mptcp_set_path_manager env_user kernel_AB conn_plain "C" =
        (ret.neg errno.ENOENT, kernel_AB, conn_plain) :=
  ⟨by decide, rfl,
    C6_set_override_unregistered env_user kernel_AB conn_plain "C" (by decide) rfl⟩

theorem find_autoload_hit (env : Env) (k : Kernel) (name : String) (pm : mptcp_pm_ops)
    (h : mptcp_pm_find k name = some pm) :
    __mptcp_pm_find_autoload env k name = (some pm, k) := by
  rw [find_autoload_eq]
  simp [h]

theorem try_module_get_builtin (mods : Nat → module) :
    try_module_get mods mptcp_pm_default.owner = (true, mods) := rfl

theorem init_loop_some {mods : Nat → module} {l : List mptcp_pm_ops}
    {pm : mptcp_pm_ops} {mods1 : Nat → module}
    (h : init_loop mods l = some (pm, mods1)) :
    ∃ l1 l2, l = l1 ++ pm :: l2 ∧
      (∀ x ∈ l1, (try_module_get mods x.owner).1 = false) ∧
      (try_module_get mods pm.owner).1 = true ∧
      mods1 = (try_module_get mods pm.owner).2 := by
  induction l with
  | nil => simp [init_loop] at h
  | cons a t ih =>
    unfold init_loop at h
    by_cases ha : (try_module_get mods a.owner).1 = true
    · rw [if_pos ha] at h
      cases h
      exact ⟨[], t, rfl, by simp, ha, rfl⟩
    · rw [if_neg ha] at h
      obtain ⟨l1, l2, hl, hfail, hok, hm⟩ := ih h
      refine ⟨a :: l1, l2, by rw [hl]; rfl, ?_, hok, hm⟩
      intro x hx
      rcases List.mem_cons.mp hx with rfl | hx1
      · simpa using ha
      · exact hfail x hx1

theorem init_loop_isSome {mods : Nat → module} {l : List mptcp_pm_ops}
    (h : ∃ x ∈ l, (try_module_get mods x.owner).1 = true) :
    ∃ r, init_loop mods l = some r := by
  induction l with
  | nil =>
    obtain ⟨x, hx, _⟩ := h
    cases hx
  | cons a t ih =>
    unfold init_loop
    by_cases ha : (try_module_get mods a.owner).1 = true
    · rw [if_pos ha]
      exact ⟨_, rfl⟩
    · rw [if_neg ha]
      obtain ⟨x, hx, hxp⟩ := h
      rcases List.mem_cons.mp hx with rfl | hx1
      · exact absurd hxp ha
      · exact ih ⟨x, hx1, hxp⟩

/-- What the loop of `mptcp_init_path_manager` does on a store that holds the
built-in default path manager: it binds the first entry that can be pinned,
pins it, and leaves the store as it is. -/
theorem init_fallback_spec (k : Kernel) (mpcb : mptcp_cb)
    (hdef : mptcp_pm_default ∈ k.mptcp_pm_list) :
    ∃ pm l1 l2, k.mptcp_pm_list = l1 ++ pm :: l2 ∧
      (∀ x ∈ l1, (try_module_get k.modules x.owner).1 = false) ∧
      (try_module_get k.modules pm.owner).1 = true ∧
      init_fallback k mpcb =
        ({ k with modules := (try_module_get k.modules pm.owner).2 },
          { mpcb with pm_ops := some pm }) := by
  obtain ⟨⟨pm, mods1⟩, hr⟩ := init_loop_isSome
    (⟨mptcp_pm_default, hdef, rfl⟩ :
      ∃ x ∈ k.mptcp_pm_list, (try_module_get k.modules x.owner).1 = true)
  obtain ⟨l1, l2, hl, hfail, hok, hm⟩ := init_loop_some hr
  refine ⟨pm, l1, l2, hl, hfail, hok, ?_⟩
  simp [init_fallback, hr, hm]

theorem init_eq (env : Env) (k : Kernel) (mpcb : mptcp_cb) :
    mptcp_init_path_manager env k mpcb =
      if mpcb.meta_tp.mptcp_pm_setsockopt = true then
        match (__mptcp_pm_find_autoload env k mpcb.meta_tp.mptcp_pm_name).1 with
        | some pm =>
          if (try_module_get k.modules pm.owner).1 = true then
            ({ (__mptcp_pm_find_autoload env k mpcb.meta_tp.mptcp_pm_name).2 with
                modules := (try_module_get k.modules pm.owner).2 },
              { mpcb with pm_ops := some pm })
          else
            init_fallback (__mptcp_pm_find_autoload env k mpcb.meta_tp.mptcp_pm_name).2 mpcb
        | none =>
          init_fallback (__mptcp_pm_find_autoload env k mpcb.meta_tp.mptcp_pm_name).2 mpcb
      else init_fallback k mpcb := by
  have hmods := find_autoload_modules env k mpcb.meta_tp.mptcp_pm_name
  unfold mptcp_init_path_manager
  cases hauto : __mptcp_pm_find_autoload env k mpcb.meta_tp.mptcp_pm_name with
  | mk found k1 =>
    rw [hauto] at hmods
    simp only at hmods
    cases found with
    | none => rfl
    | some pm => simp only [hmods]

/-- The store and the module table on which `mptcp_init_path_manager` runs its
loop: the state left by `__mptcp_pm_find_autoload` when the socket option is
set, the initial state otherwise. -/
theorem init_cases (env : Env) (k : Kernel) (mpcb : mptcp_cb) :
    (mpcb.meta_tp.mptcp_pm_setsockopt = true ∧
      ∃ pm, (__mptcp_pm_find_autoload env k mpcb.meta_tp.mptcp_pm_name).1 = some pm ∧
        (try_module_get k.modules pm.owner).1 = true ∧
        mptcp_init_path_manager env k mpcb =
          ({ (__mptcp_pm_find_autoload env k mpcb.meta_tp.mptcp_pm_name).2 with
              modules := (try_module_get k.modules pm.owner).2 },
            { mpcb with pm_ops := some pm })) ∨
    ((mpcb.meta_tp.mptcp_pm_setsockopt = true →
        ∀ pm, (__mptcp_pm_find_autoload env k mpcb.meta_tp.mptcp_pm_name).1 = some pm →
          (try_module_get k.modules pm.owner).1 = false) ∧
      ∃ k1, k.mptcp_pm_list <+: k1.mptcp_pm_list ∧ k1.modules = k.modules ∧
        (mpcb.meta_tp.mptcp_pm_setsockopt = false → k1 = k) ∧
        mptcp_init_path_manager env k mpcb = init_fallback k1 mpcb) := by
  rw [init_eq]
  by_cases hset : mpcb.meta_tp.mptcp_pm_setsockopt = true
  · rw [if_pos hset]
    have hpre := find_autoload_extends env k mpcb.meta_tp.mptcp_pm_name
    have hmods := find_autoload_modules env k mpcb.meta_tp.mptcp_pm_name
    cases hfound : (__mptcp_pm_find_autoload env k mpcb.meta_tp.mptcp_pm_name).1 with
    | none =>
      refine Or.inr ⟨fun _ pm hpm => (by cases hpm), _, hpre, hmods, ?_, rfl⟩
      intro hf
      rw [hset] at hf
      cases hf
    | some pm =>
      by_cases hpin : (try_module_get k.modules pm.owner).1 = true
      · refine Or.inl ⟨hset, pm, rfl, hpin, ?_⟩
        simp only [hpin, if_true]
      · refine Or.inr ⟨fun _ q hq => ?_, _, hpre, hmods, ?_, ?_⟩
        · cases hq
          simpa using hpin
        · intro hf
          rw [hset] at hf
          cases hf
        · simp only [hpin]
          rfl
  · rw [if_neg hset]
    refine Or.inr ⟨fun h => absurd h hset, k, List.prefix_refl _, rfl, fun _ => rfl, rfl⟩

/-- C8. Fallback totality: for every state in which the built-in default path
manager is registered (its owner is the null module, whose pin never fails)
and every connection, with or without the socket option, whether or not the
name resolves and the pin of the resolved provider succeeds,
`mptcp_init_path_manager` leaves the connection bound to a provider that is in
the store and whose `try_module_get` succeeded; the module table afterwards is
the one that pin produced. -/
theorem C8_fallback_totality (env : Env) (k : Kernel) (mpcb : mptcp_cb)
    (hdef : mptcp_pm_default ∈ k.mptcp_pm_list) :
    ∃ pm, (mptcp_init_path_manager env k mpcb).2.pm_ops = some pm ∧
      pm ∈ (mptcp_init_path_manager env k mpcb).1.mptcp_pm_list ∧
      (try_module_get k.modules pm.owner).1 = true ∧
      (mptcp_init_path_manager env k mpcb).1.modules =
        (try_module_get k.modules pm.owner).2 := by
  rcases init_cases env k mpcb with ⟨_, pm, hfound, hpin, hval⟩ | ⟨_, k1, hpre, hmods, _, hval⟩
  · have hmem := (mptcp_pm_find_mem
      ((find_autoload_result env k mpcb.meta_tp.mptcp_pm_name).symm.trans hfound)).1
    rw [hval]
    exact ⟨pm, rfl, hmem, hpin, rfl⟩
  · obtain ⟨pm, l1, l2, hl, _, hok, hfb⟩ := init_fallback_spec k1 mpcb (hpre.subset hdef)
    rw [hval, hfb]
    rw [hmods] at hok
    refine ⟨pm, rfl, ?_, hok, ?_⟩
    · show pm ∈ k1.mptcp_pm_list
      rw [hl]
      simp
    · show (try_module_get k1.modules pm.owner).2 = _
      rw [hmods]

/-- Fallback totality where the socket option names "B" and the module of "B"
is going: the pin of "B" fails and the connection is bound to the default. -/
theorem C8_fallback_totality_witness :
    mptcp_pm_default ∈ kernel_B_going.mptcp_pm_list ∧
      (__mptcp_pm_find_autoload env_user kernel_B_going "B").1 = some pm_B ∧
      (try_module_get kernel_B_going.modules pm_B.owner).1 = false ∧
      (mptcp_init_path_manager env_user kernel_B_going conn_B).2.pm_ops =
        some mptcp_pm_default ∧
      ∃ pm, (mptcp_init_path_manager env_user kernel_B_going conn_B).2.pm_ops = some pm ∧
        pm ∈ (mptcp_init_path_manager env_user kernel_B_going conn_B).1.mptcp_pm_list ∧
        (try_module_get kernel_B_going.modules pm.owner).1 = true ∧
        (mptcp_init_path_manager env_user kernel_B_going conn_B).1.modules =
          (try_module_get kernel_B_going.modules pm.owner).2 :=
  ⟨by decide, by decide, by decide, by decide,
    C8_fallback_totality env_user kernel_B_going conn_B (by decide)⟩

/-- C9, as stated, fails: the store holds "B" in front of the built-in default
path manager, the socket option names "C", which does not resolve, and
`mptcp_init_path_manager` binds the connection to "B", the front entry, not to
the built-in default path manager. -/
theorem C9_counterexample :
    mptcp_pm_default ∈ kernel_B_default.mptcp_pm_list ∧
      conn_C.meta_tp.mptcp_pm_setsockopt = true ∧
      (__mptcp_pm_find_autoload env_user kernel_B_default
        conn_C.meta_tp.mptcp_pm_name).1 = none ∧
      (mptcp_init_path_manager env_user kernel_B_default conn_C).2.pm_ops = some pm_B ∧
      (mptcp_init_path_manager env_user kernel_B_default conn_C).2.pm_ops ≠
        some mptcp_pm_default := by
  decide

theorem init_loop_first {mods : Nat → module} {l1 l2 : List mptcp_pm_ops}
    {pm : mptcp_pm_ops}
    (hfail : ∀ x ∈ l1, (try_module_get mods x.owner).1 = false)
    (hok : (try_module_get mods pm.owner).1 = true) :
    init_loop mods (l1 ++ pm :: l2) = some (pm, (try_module_get mods pm.owner).2) := by
  induction l1 with
  | nil => simp [init_loop, hok]
  | cons a t ih =>
    have ha : (try_module_get mods a.owner).1 = false := hfail a (List.mem_cons_self _ _)
    have ht := ih (fun x hx => hfail x (List.mem_cons_of_mem _ hx))
    simp only [List.cons_append, init_loop, ha]
    simpa using ht

theorem first_pinnable_split {mods : Nat → module} {l : List mptcp_pm_ops}
    (h : ∃ x ∈ l, (try_module_get mods x.owner).1 = true) :
    ∃ pm l1 l2, l = l1 ++ pm :: l2 ∧
      (∀ x ∈ l1, (try_module_get mods x.owner).1 = false) ∧
      (try_module_get mods pm.owner).1 = true := by
  obtain ⟨⟨pm, mods1⟩, hr⟩ := init_loop_isSome h
  obtain ⟨l1, l2, hl, hfail, hok, _⟩ := init_loop_some hr
  exact ⟨pm, l1, l2, hl, hfail, hok⟩

/-- The state on which `mptcp_init_path_manager` runs its loop when the socket
option does not give a pinned provider: the state after `request_module` when
the option is set, modules are configured in, the name is not in the store and
the caller is capable; the state of the call otherwise. -/
theorem init_fallback_case (env : Env) (k : Kernel) (mpcb : mptcp_cb)
    (hfail : mpcb.meta_tp.mptcp_pm_setsockopt = true →
      ∀ pm, (__mptcp_pm_find_autoload env k mpcb.meta_tp.mptcp_pm_name).1 = some pm →
        (try_module_get k.modules pm.owner).1 = false) :
    mptcp_init_path_manager env k mpcb =
      init_fallback
        (if (mpcb.meta_tp.mptcp_pm_setsockopt && (env.CONFIG_MODULES &&
            ((mptcp_pm_find k mpcb.meta_tp.mptcp_pm_name).isNone && env.capable))) = true
          then request_module env k mpcb.meta_tp.mptcp_pm_name else k) mpcb := by
  rw [init_eq]
  by_cases hset : mpcb.meta_tp.mptcp_pm_setsockopt = true
  · have hstate : (__mptcp_pm_find_autoload env k mpcb.meta_tp.mptcp_pm_name).2 =
        (if (mpcb.meta_tp.mptcp_pm_setsockopt && (env.CONFIG_MODULES &&
            ((mptcp_pm_find k mpcb.meta_tp.mptcp_pm_name).isNone && env.capable))) = true
          then request_module env k mpcb.meta_tp.mptcp_pm_name else k) := by
      rw [find_autoload_eq, hset, Bool.true_and]
      split <;> rfl
    rw [if_pos hset, ← hstate]
    cases hfound : (__mptcp_pm_find_autoload env k mpcb.meta_tp.mptcp_pm_name).1 with
    | none => rfl
    | some pm =>
      have hpin := hfail hset pm hfound
      simp only [hpin]
      rfl
  · have hset1 : mpcb.meta_tp.mptcp_pm_setsockopt = false := by
      simpa using hset
    rw [if_neg hset, hset1]
    simp

/-- C9, amended. For every store containing the built-in default path manager
and every connection, if the socket option is not set, or its name does not
resolve, or the pin of the resolved provider fails, then
`mptcp_init_path_manager` binds the connection to the first entry, in the order
of the store of the call, whose pin succeeds: every entry ahead of it fails to
pin. The state afterwards is the state of the call, or the state after
`request_module` when the loader was invoked for the name of the socket
option, with the pin of that entry added. That entry is the built-in default
path manager when the built-in default path manager is the front entry of the
store. -/
theorem C9_fallback_first_pinnable (env : Env) (k : Kernel) (mpcb : mptcp_cb)
    (hdef : mptcp_pm_default ∈ k.mptcp_pm_list)
    (hfail : mpcb.meta_tp.mptcp_pm_setsockopt = true →
      ∀ pm, (__mptcp_pm_find_autoload env k mpcb.meta_tp.mptcp_pm_name).1 = some pm →
        (try_module_get k.modules pm.owner).1 = false) :
    ∃ pm l1 l2,
      k.mptcp_pm_list = l1 ++ pm :: l2 ∧
      (∀ x ∈ l1, (try_module_get k.modules x.owner).1 = false) ∧
      (try_module_get k.modules pm.owner).1 = true ∧
      mptcp_init_path_manager env k mpcb =
        ({ (if (mpcb.meta_tp.mptcp_pm_setsockopt && (env.CONFIG_MODULES &&
                ((mptcp_pm_find k mpcb.meta_tp.mptcp_pm_name).isNone && env.capable))) = true
              then request_module env k mpcb.meta_tp.mptcp_pm_name else k) with
            modules := (try_module_get k.modules pm.owner).2 },
          { mpcb with pm_ops := some pm }) ∧
      (mptcp_init_path_manager env k mpcb).2.pm_ops = some pm ∧
      (∃ l3, (mptcp_init_path_manager env k mpcb).1.mptcp_pm_list = l1 ++ pm :: l3) ∧
      (k.mptcp_pm_list.head? = some mptcp_pm_default → pm = mptcp_pm_default) := by
  obtain ⟨pm, l1, l2, hl, hno, hok⟩ := first_pinnable_split
    (⟨mptcp_pm_default, hdef, rfl⟩ :
      ∃ x ∈ k.mptcp_pm_list, (try_module_get k.modules x.owner).1 = true)
  have hval0 := init_fallback_case env k mpcb hfail
  have hext : ∀ k1 : Kernel, k.mptcp_pm_list <+: k1.mptcp_pm_list →
      k1.modules = k.modules →
      init_fallback k1 mpcb =
          ({ k1 with modules := (try_module_get k.modules pm.owner).2 },
            { mpcb with pm_ops := some pm }) ∧
        ∃ l3, k1.mptcp_pm_list = l1 ++ pm :: l3 := by
    intro k1 hpre hmods
    obtain ⟨t, ht⟩ := hpre
    have hl1 : k1.mptcp_pm_list = l1 ++ pm :: (l2 ++ t) := by
      rw [← ht, hl]
      simp
    have hloop := @init_loop_first k.modules l1 (l2 ++ t) pm hno hok
    refine ⟨?_, l2 ++ t, hl1⟩
    simp only [init_fallback, hmods, hl1, hloop]
  have hcase : ∀ b : Bool,
      k.mptcp_pm_list <+:
          (if b = true then request_module env k mpcb.meta_tp.mptcp_pm_name
            else k).mptcp_pm_list ∧
        (if b = true then request_module env k mpcb.meta_tp.mptcp_pm_name
          else k).modules = k.modules := by
    intro b
    cases b with
    | false => exact ⟨List.prefix_refl _, rfl⟩
    | true =>
      exact ⟨request_module_extends env k _, request_module_modules env k _⟩
  obtain ⟨hpre, hmods⟩ := hcase (mpcb.meta_tp.mptcp_pm_setsockopt && (env.CONFIG_MODULES &&
    ((mptcp_pm_find k mpcb.meta_tp.mptcp_pm_name).isNone && env.capable)))
  obtain ⟨hfb, l3, hl3⟩ := hext _ hpre hmods
  have hval := hval0.trans hfb
  refine ⟨pm, l1, l2, hl, hno, hok, hval, by rw [hval], ⟨l3, by rw [hval]; exact hl3⟩, ?_⟩
  intro hhead
  rw [hl] at hhead
  cases l1 with
  | nil =>
    simp at hhead
    exact hhead
  | cons a t =>
    simp at hhead
    have hbad := hno a (List.mem_cons_self _ _)
    rw [hhead] at hbad
    cases hbad

/-- The amended C9 where the built-in default path manager is the front entry,
ahead of "B", and the socket option names "C", which does not resolve: the
connection is bound to the built-in default path manager. -/
theorem C9_fallback_first_pinnable_witness :
    (mptcp_init_path_manager env_user
        { empty_kernel with mptcp_pm_list := [mptcp_pm_default, pm_B] } conn_C).2.pm_ops =
        some mptcp_pm_default ∧
      ∃ pm l1 l2,
        [mptcp_pm_default, pm_B] = l1 ++ pm :: l2 ∧
        (∀ x ∈ l1, (try_module_get empty_kernel.modules x.owner).1 = false) ∧
        (try_module_get empty_kernel.modules pm.owner).1 = true ∧
        mptcp_init_path_manager env_user
            { empty_kernel with mptcp_pm_list := [mptcp_pm_default, pm_B] } conn_C =
          ({ (if (conn_C.meta_tp.mptcp_pm_setsockopt && (env_user.CONFIG_MODULES &&
                  ((mptcp_pm_find
                      { empty_kernel with mptcp_pm_list := [mptcp_pm_default, pm_B] }
                      conn_C.meta_tp.mptcp_pm_name).isNone && env_user.capable))) = true
                then request_module env_user
                  { empty_kernel with mptcp_pm_list := [mptcp_pm_default, pm_B] }
                  conn_C.meta_tp.mptcp_pm_name
                else { empty_kernel with mptcp_pm_list := [mptcp_pm_default, pm_B] }) with
              modules := (try_module_get empty_kernel.modules pm.owner).2 },
            { conn_C with pm_ops := some pm }) ∧
        (mptcp_init_path_manager env_user
          { empty_kernel with mptcp_pm_list := [mptcp_pm_default, pm_B] }
          conn_C).2.pm_ops = some pm ∧
        (∃ l3, (mptcp_init_path_manager env_user
          { empty_kernel with mptcp_pm_list := [mptcp_pm_default, pm_B] }
          conn_C).1.mptcp_pm_list = l1 ++ pm :: l3) ∧
        ([mptcp_pm_default, pm_B].head? = some mptcp_pm_default →
          pm = mptcp_pm_default) :=
  ⟨by decide,
    C9_fallback_first_pinnable env_user
      { empty_kernel with mptcp_pm_list := [mptcp_pm_default, pm_B] } conn_C
      (by decide) (fun _ pm h => by
        have h0 : (__mptcp_pm_find_autoload env_user
            { empty_kernel with mptcp_pm_list := [mptcp_pm_default, pm_B] }
            conn_C.meta_tp.mptcp_pm_name).1 = none := by decide
        rw [h0] at h
        cases h)⟩

/-- C10. For every non-empty store whose front entry can be pinned and every
connection with the socket option not set, `mptcp_init_path_manager` binds the
connection to the front entry of the store, pins it and leaves the store as it
is; `mptcp_get_default_path_manager` in the same state (before as after the
call) reports the `strncpy` copy of the name of that entry, which is the name
itself when it fits the name buffer. -/
theorem C10_bind_default (env : Env) (k : Kernel) (mpcb : mptcp_cb)
    (front : mptcp_pm_ops) (rest : List mptcp_pm_ops)
    (hstore : k.mptcp_pm_list = front :: rest)
    (hpin : (try_module_get k.modules front.owner).1 = true)
    (hset : mpcb.meta_tp.mptcp_pm_setsockopt = false) :
    mptcp_init_path_manager env k mpcb =
        ({ k with modules := (try_module_get k.modules front.owner).2 },
          { mpcb with pm_ops := some front }) ∧
      (mptcp_init_path_manager env k mpcb).2.pm_ops = some front ∧
      mptcp_get_default_path_manager env k =
        some (strncpy front.name env.MPTCP_PM_NAME_MAX) ∧
      mptcp_get_default_path_manager env (mptcp_init_path_manager env k mpcb).1 =
        mptcp_get_default_path_manager env k ∧
      (front.name.length ≤ env.MPTCP_PM_NAME_MAX →
        mptcp_get_default_path_manager env k = some front.name) := by
  have hval : mptcp_init_path_manager env k mpcb =
      ({ k with modules := (try_module_get k.modules front.owner).2 },
        { mpcb with pm_ops := some front }) := by
    simp [mptcp_init_path_manager, hset, init_fallback, hstore, init_loop, hpin]
  have hget : mptcp_get_default_path_manager env k =
      some (strncpy front.name env.MPTCP_PM_NAME_MAX) := by
    simp [mptcp_get_default_path_manager, hstore]
  refine ⟨hval, by rw [hval], hget, ?_, ?_⟩
  · rw [hval]
    rfl
  · intro hfit
    rw [hget, strncpy_fits _ _ hfit]

/-- C10 on the store holding "A" and "B" and a fresh connection: the connection
is bound to "A", the name `mptcp_get_default_path_manager` reports. -/
theorem C10_bind_default_witness :
    kernel_AB.mptcp_pm_list = pm_A :: [pm_B] ∧
      (try_module_get kernel_AB.modules pm_A.owner).1 = true ∧
      conn_plain.meta_tp.mptcp_pm_setsockopt = false ∧
      (mptcp_init_path_manager env_user kernel_AB conn_plain).2.pm_ops = some pm_A ∧
      mptcp_get_default_path_manager env_user kernel_AB = some "A" ∧
      (mptcp_init_path_manager env_user kernel_AB conn_plain).2.pm_ops = some pm_A :=
  ⟨rfl, by decide, rfl, by decide, by decide,
    (C10_bind_default env_user kernel_AB conn_plain pm_A [pm_B] rfl (by decide) rfl).2.1⟩

/-! ## Binding the provider named by the socket option: C11 -/

/-- C11. For every store and every connection whose socket-option flag is set
with a name that is registered (`pm` is the entry `mptcp_pm_find` yields for
it: the first entry of that name, wherever it stands in the store and whatever
the front entry is) and whose `try_module_get` succeeds,
`mptcp_init_path_manager` binds the connection to exactly `pm`, an entry of the
store carrying that name, pins it, calls no loader and leaves the store as it
is. -/
theorem C11_bind_override (env : Env) (k : Kernel) (mpcb : mptcp_cb)
    (pm : mptcp_pm_ops)
    (hset : mpcb.meta_tp.mptcp_pm_setsockopt = true)
    (hfind : mptcp_pm_find k mpcb.meta_tp.mptcp_pm_name = some pm)
    (hpin : (try_module_get k.modules pm.owner).1 = true) :
    mptcp_init_path_manager env k mpcb =
        ({ k with modules := (try_module_get k.modules pm.owner).2 },
          { mpcb with pm_ops := some pm }) ∧
      (mptcp_init_path_manager env k mpcb).2.pm_ops = some pm ∧
      pm.name = mpcb.meta_tp.mptcp_pm_name ∧
      pm ∈ (mptcp_init_path_manager env k mpcb).1.mptcp_pm_list := by
  have hval : mptcp_init_path_manager env k mpcb =
      ({ k with modules := (try_module_get k.modules pm.owner).2 },
        { mpcb with pm_ops := some pm }) := by
    rw [init_eq, if_pos hset, find_autoload_hit env k _ pm hfind]
    simp only [hpin, if_true]
  have hmem := mptcp_pm_find_mem hfind
  refine ⟨hval, by rw [hval], hmem.2, ?_⟩
  rw [hval]
  exact hmem.1

/-- C11 on the store holding "A" and "B", where "A" is the default and the
socket option names "B": the connection is bound to "B". -/
theorem C11_bind_override_witness :
    conn_B.meta_tp.mptcp_pm_setsockopt = true ∧
      mptcp_pm_find kernel_AB conn_B.meta_tp.mptcp_pm_name = some pm_B ∧
      (try_module_get kernel_AB.modules pm_B.owner).1 = true ∧
      mptcp_get_default_path_manager env_user kernel_AB = some "A" ∧
      (mptcp_init_path_manager env_user kernel_AB conn_B).2.pm_ops = some pm_B :=
  ⟨rfl, by decide, by decide, by decide,
    (C11_bind_override env_user kernel_AB conn_B pm_B rfl (by decide) (by decide)).2.1⟩

/-! ## Lemmas on reference counts -/

theorem try_module_get_some (mods : Nat → module) (m : Nat)
    (h : (try_module_get mods (some m)).1 = true) :
    (try_module_get mods (some m)).2 =
      Function.update mods m { mods m with refcnt := (mods m).refcnt + 1 } := by
  unfold try_module_get at h ⊢
  by_cases hc : ((mods m).live && decide ((mods m).refcnt ≠ 0)) = true
  · simp only [hc, if_true]
  · simp only [hc, if_false] at h
    cases h

theorem try_module_get_none (mods : Nat → module) :
    (try_module_get mods none).2 = mods := rfl

theorem put_after_get (mods : Nat → module) (o : Option Nat)
    (h : (try_module_get mods o).1 = true) :
    module_put (try_module_get mods o).2 o = mods := by
  cases o with
  | none => rfl
  | some m =>
    rw [try_module_get_some mods m h]
    simp only [module_put, Function.update_same, Function.update_idem]
    have : ({ live := (mods m).live, refcnt := (mods m).refcnt + 1 - 1 } : module) = mods m := by
      simp
    rw [this, Function.update_eq_self]

theorem init_fallback_effect (k : Kernel) (mpcb : mptcp_cb) :
    (init_fallback k mpcb).1.mptcp_pm_list = k.mptcp_pm_list ∧
      (init_fallback k mpcb).1.requested = k.requested ∧
      (init_fallback k mpcb).2.meta_tp = mpcb.meta_tp ∧
      (((init_fallback k mpcb).2.pm_ops = mpcb.pm_ops ∧
          (init_fallback k mpcb).1.modules = k.modules) ∨
        ∃ pm, (init_fallback k mpcb).2.pm_ops = some pm ∧
          (try_module_get k.modules pm.owner).1 = true ∧
          (init_fallback k mpcb).1.modules = (try_module_get k.modules pm.owner).2) := by
  unfold init_fallback
  cases hr : init_loop k.modules k.mptcp_pm_list with
  | none => exact ⟨rfl, rfl, rfl, Or.inl ⟨rfl, rfl⟩⟩
  | some r =>
    obtain ⟨pm, mods1⟩ := r
    obtain ⟨_, _, _, _, hok, hm⟩ := init_loop_some hr
    exact ⟨rfl, rfl, rfl, Or.inr ⟨pm, rfl, hok, hm⟩⟩

/-- What `mptcp_init_path_manager` does to the connection and to the module
table: either nothing is bound and nothing is counted, or a provider is bound
and the module table is the one its successful pin produced. -/
theorem init_effect (env : Env) (k : Kernel) (mpcb : mptcp_cb) :
    (mptcp_init_path_manager env k mpcb).2.meta_tp = mpcb.meta_tp ∧
      (((mptcp_init_path_manager env k mpcb).2.pm_ops = mpcb.pm_ops ∧
          (mptcp_init_path_manager env k mpcb).1.modules = k.modules) ∨
        ∃ pm, (mptcp_init_path_manager env k mpcb).2.pm_ops = some pm ∧
          (try_module_get k.modules pm.owner).1 = true ∧
          (mptcp_init_path_manager env k mpcb).1.modules =
            (try_module_get k.modules pm.owner).2) := by
  rcases init_cases env k mpcb with ⟨_, pm, _, hpin, hval⟩ | ⟨_, k1, _, hmods, _, hval⟩
  · rw [hval]
    exact ⟨rfl, Or.inr ⟨pm, rfl, hpin, rfl⟩⟩
  · rw [hval]
    obtain ⟨_, _, htp, heff⟩ := init_fallback_effect k1 mpcb
    rw [hmods] at heff
    exact ⟨htp, heff⟩

theorem init_extends (env : Env) (k : Kernel) (mpcb : mptcp_cb) :
    k.mptcp_pm_list <+: (mptcp_init_path_manager env k mpcb).1.mptcp_pm_list := by
  rcases init_cases env k mpcb with ⟨_, pm, _, _, hval⟩ | ⟨_, k1, hpre, _, _, hval⟩
  · rw [hval]
    exact find_autoload_extends env k _
  · rw [hval, (init_fallback_effect k1 mpcb).1]
    exact hpre

theorem set_default_modules (env : Env) (k : Kernel) (name : String) :
    (mptcp_set_default_path_manager env k name).2.modules = k.modules := by
  unfold mptcp_set_default_path_manager
  by_cases hc : (env.CONFIG_MODULES && ((mptcp_pm_find k name).isNone && env.capable)) = true
  · simp only [hc, if_true]
    cases hf : mptcp_pm_find (request_module env k name) name with
    | none => exact request_module_modules env k name
    | some p => exact request_module_modules env k name
  · simp only [hc, if_false]
    cases hf : mptcp_pm_find k name with
    | none => rfl
    | some p => rfl

theorem step_modules {k k1 : Kernel} {op : Op} (hs : step k op = some k1) :
    k1.modules = k.modules := by
  cases op with
  | register pm => cases hs; exact register_modules k pm
  | unregister pm =>
    simp only [step, mptcp_unregister_path_manager] at hs
    split at hs
    · cases hs; rfl
    · cases hs
  | set_default env name => cases hs; exact set_default_modules env k name

theorem pins_append_one (m : Nat) (l : List mptcp_cb) (c : mptcp_cb) :
    pins m (l ++ [c]) = pins m l + if pinned_by m c = true then 1 else 0 := by
  simp [pins, List.countP_cons]

theorem pins_erase (m : Nat) {l : List mptcp_cb} {c : mptcp_cb} (h : c ∈ l) :
    pins m l = pins m (l.erase c) + if pinned_by m c = true then 1 else 0 := by
  unfold pins
  rw [(List.perm_cons_erase h).countP_eq, List.countP_cons]

theorem balanced_bind {base : Nat → module} {s : Kernel × List mptcp_cb}
    (h : balanced base s) (env : Env) (tp : tcp_sock) :
    balanced base
      ((mptcp_init_path_manager env s.1 { meta_tp := tp, pm_ops := none }).1,
        s.2 ++ [(mptcp_init_path_manager env s.1 { meta_tp := tp, pm_ops := none }).2]) := by
  intro m
  obtain ⟨hr, hl⟩ := h m
  simp only [pins_append_one]
  rcases (init_effect env s.1 { meta_tp := tp, pm_ops := none }).2 with
    ⟨hpm, hmods⟩ | ⟨pm, hpm, hpin, hmods⟩
  · rw [hmods]
    simp [pinned_by, hpm, hr, hl]
  · rw [hmods]
    cases ho : pm.owner with
    | none =>
      rw [try_module_get_none]
      simp [pinned_by, hpm, ho, hr, hl]
    | some m0 =>
      rw [ho] at hpin
      rw [try_module_get_some _ _ hpin]
      by_cases hm : m = m0
      · subst hm
        simp [pinned_by, hpm, ho, hr, hl]
        omega
      · have hne : ¬ (m0 = m) := fun e => hm e.symm
        simp [pinned_by, hpm, ho, hr, hl, Function.update_noteq hm, hne]

theorem balanced_unbind {base : Nat → module} {s s1 : Kernel × List mptcp_cb}
    (h : balanced base s) {c : mptcp_cb} (hs : conn_step s (ConnOp.unbind c) = some s1) :
    balanced base s1 := by
  simp only [conn_step] at hs
  split at hs
  · rename_i hmem
    cases hpm : c.pm_ops with
    | none => simp [mptcp_cleanup_path_manager, hpm] at hs
    | some pm =>
      simp only [mptcp_cleanup_path_manager, hpm] at hs
      cases hs
      intro m
      obtain ⟨hr, hl⟩ := h m
      have he := pins_erase m hmem
      cases ho : pm.owner with
      | none =>
        simp only [module_put]
        simp [pinned_by, hpm, ho] at he
        exact ⟨by rw [hr, he], hl⟩
      | some m0 =>
        simp only [module_put]
        by_cases hm : m = m0
        · subst hm
          simp [pinned_by, hpm, ho] at he
          simp [hr, hl]
          omega
        · have hne : ¬ (m0 = m) := fun e => hm e.symm
          simp [pinned_by, hpm, ho, hne] at he
          simp [Function.update_noteq hm, hr, hl, he]
  · cases hs

theorem balanced_step {base : Nat → module} {s s1 : Kernel × List mptcp_cb}
    (h : balanced base s) {op : ConnOp} (hs : conn_step s op = some s1) :
    balanced base s1 := by
  cases op with
  | bind env tp =>
    simp only [conn_step] at hs
    cases hs
    exact balanced_bind h env tp
  | unbind c => exact balanced_unbind h hs
  | registry o =>
    simp only [conn_step] at hs
    cases hst : step s.1 o with
    | none => simp [hst] at hs
    | some k1 =>
      simp only [hst] at hs
      cases hs
      intro m
      simp only [step_modules hst]
      exact h m

theorem balanced_run {base : Nat → module} (ops : List ConnOp)
    {s s1 : Kernel × List mptcp_cb} (h : balanced base s)
    (hr : conn_run s ops = some s1) : balanced base s1 := by
  induction ops generalizing s with
  | nil => cases hr; exact h
  | cons op ops ih =>
    unfold conn_run at hr
    cases hs : conn_step s op with
    | none => simp [hs] at hr
    | some s2 =>
      rw [hs] at hr
      exact ih (balanced_step h hs) hr

/-! ## Pin balance: C12 -/

/-- When some entry of the store of the call can be pinned,
`mptcp_init_path_manager` binds a provider whose pin succeeded, and the module
table afterwards is the one that pin produced. -/
theorem init_binds (env : Env) (k : Kernel) (mpcb : mptcp_cb)
    (h : ∃ x ∈ k.mptcp_pm_list, (try_module_get k.modules x.owner).1 = true) :
    ∃ pm, (mptcp_init_path_manager env k mpcb).2.pm_ops = some pm ∧
      (try_module_get k.modules pm.owner).1 = true ∧
      (mptcp_init_path_manager env k mpcb).1.modules =
        (try_module_get k.modules pm.owner).2 := by
  rcases init_cases env k mpcb with ⟨_, pm, _, hpin, hval⟩ | ⟨_, k1, hpre, hmods, _, hval⟩
  · rw [hval]
    exact ⟨pm, rfl, hpin, rfl⟩
  · obtain ⟨x, hx, hxp⟩ := h
    obtain ⟨⟨pm, mods1⟩, hr⟩ := init_loop_isSome
      (⟨x, hpre.subset hx, by rw [hmods]; exact hxp⟩ :
        ∃ y ∈ k1.mptcp_pm_list, (try_module_get k1.modules y.owner).1 = true)
    obtain ⟨_, _, _, _, hok, hm⟩ := init_loop_some hr
    rw [hmods] at hok hm
    rw [hval]
    refine ⟨pm, ?_, hok, ?_⟩
    · simp only [init_fallback, hr]
    · simp only [init_fallback, hr, hm]

/-- C12, as stated, fails: a provider owned by built-in code has no reference
count. On the store holding the built-in default path manager in front of "B",
a plain connection is bound to the built-in default path manager, whose owner
is null, and the module table is the one before the call: no count went up. -/
theorem C12_counterexample :
    (mptcp_init_path_manager env_user
        { empty_kernel with mptcp_pm_list := [mptcp_pm_default, pm_B] }
        conn_plain).2.pm_ops = some mptcp_pm_default ∧
      mptcp_pm_default.owner = none ∧
      (mptcp_init_path_manager env_user
        { empty_kernel with mptcp_pm_list := [mptcp_pm_default, pm_B] }
        conn_plain).1.modules = empty_kernel.modules :=
  ⟨by decide, rfl, rfl⟩

/-- C12, amended. Pin balance, the counts being those of the modules that own
the providers. (0) When some entry of the store can be pinned,
`mptcp_init_path_manager` binds a provider whose pin succeeded. (1)
`mptcp_init_path_manager` either binds nothing and leaves every count as it is
(failed pins change nothing), or binds a provider and raises the count of the
module that owns that provider by exactly one, changing no other module; a
provider owned by built-in code, with a null owner, as the built-in default
path manager, has no count, and binding it changes nothing. In that case
`mptcp_cleanup_path_manager` on the result restores the module table. (2)
`mptcp_cleanup_path_manager` lowers the count of the owner of the bound
provider by one and changes no other module. (3) Over every sequence of binds,
unbinds and registry calls, the count of each module is its initial count plus
the number of live connections bound to a provider it owns; once every bind
has had its unbind, the module table is the initial one. -/
theorem C12_pin_balance (env : Env) (k : Kernel) (mpcb : mptcp_cb) :
    ((∃ x ∈ k.mptcp_pm_list, (try_module_get k.modules x.owner).1 = true) →
        ∃ pm, (mptcp_init_path_manager env k mpcb).2.pm_ops = some pm ∧
          (try_module_get k.modules pm.owner).1 = true ∧
          (mptcp_init_path_manager env k mpcb).1.modules =
            (try_module_get k.modules pm.owner).2) ∧
      (((mptcp_init_path_manager env k mpcb).2.pm_ops = mpcb.pm_ops ∧
          (mptcp_init_path_manager env k mpcb).1.modules = k.modules) ∨
        ∃ pm, (mptcp_init_path_manager env k mpcb).2.pm_ops = some pm ∧
          (∀ m, pm.owner = some m →
            module_refcnt m (mptcp_init_path_manager env k mpcb).1 =
                module_refcnt m k + 1 ∧
              ((mptcp_init_path_manager env k mpcb).1.modules m).live =
                (k.modules m).live ∧
              ∀ m1, m1 ≠ m →
                (mptcp_init_path_manager env k mpcb).1.modules m1 = k.modules m1) ∧
          (pm.owner = none →
            (mptcp_init_path_manager env k mpcb).1.modules = k.modules) ∧
          ∃ k1, mptcp_cleanup_path_manager (mptcp_init_path_manager env k mpcb).1
                (mptcp_init_path_manager env k mpcb).2 = some k1 ∧
            k1.modules = k.modules) ∧
      (∀ pm, mpcb.pm_ops = some pm →
        ∃ k1, mptcp_cleanup_path_manager k mpcb = some k1 ∧
          k1.mptcp_pm_list = k.mptcp_pm_list ∧
          (∀ m, pm.owner = some m →
            module_refcnt m k1 = module_refcnt m k - 1 ∧
              (0 < module_refcnt m k → module_refcnt m k1 + 1 = module_refcnt m k) ∧
              ∀ m1, m1 ≠ m → k1.modules m1 = k.modules m1) ∧
          (pm.owner = none → k1.modules = k.modules)) ∧
      (∀ (ops : List ConnOp) (kN : Kernel) (live : List mptcp_cb),
        conn_run (k, []) ops = some (kN, live) →
          (∀ m, module_refcnt m kN = module_refcnt m k + pins m live) ∧
            (live = [] → kN.modules = k.modules)) := by
  refine ⟨init_binds env k mpcb, ?_, ?_, ?_⟩
  · rcases (init_effect env k mpcb).2 with hno | ⟨pm, hpm, hpin, hmods⟩
    · exact Or.inl hno
    · refine Or.inr ⟨pm, hpm, ?_, ?_, ?_⟩
      · intro m ho
        rw [ho] at hpin hmods
        rw [try_module_get_some _ _ hpin] at hmods
        refine ⟨?_, ?_, ?_⟩
        · simp [module_refcnt, hmods]
        · simp [hmods]
        · intro m1 hne
          rw [hmods, Function.update_noteq hne]
      · intro ho
        rw [ho] at hmods
        exact hmods
      · refine ⟨{ (mptcp_init_path_manager env k mpcb).1 with
            modules := module_put (mptcp_init_path_manager env k mpcb).1.modules pm.owner },
          by simp only [mptcp_cleanup_path_manager, hpm], ?_⟩
        show module_put _ pm.owner = k.modules
        rw [hmods]
        exact put_after_get k.modules pm.owner hpin
  · intro pm hpm
    refine ⟨{ k with modules := module_put k.modules pm.owner },
      by simp only [mptcp_cleanup_path_manager, hpm], rfl, ?_, ?_⟩
    · intro m ho
      refine ⟨?_, ?_, ?_⟩
      · simp [module_refcnt, ho, module_put]
      · intro hpos
        simp only [module_refcnt, ho, module_put, Function.update_same] at hpos ⊢
        omega
      · intro m1 hne
        simp only [ho, module_put]
        rw [Function.update_noteq hne]
    · intro ho
      simp only [ho, module_put]
  · intro ops kN live hrun
    have hb : balanced k.modules (k, ([] : List mptcp_cb)) := by
      intro m
      simp [pins]
    have hN := balanced_run ops hb hrun
    refine ⟨fun m => (hN m).1, ?_⟩
    intro hl
    subst hl
    funext m
    obtain ⟨hr, hlive⟩ := hN m
    simp [pins] at hr
    cases hx : kN.modules m with
    | mk l1 r1 =>
      cases hy : k.modules m with
      | mk l2 r2 =>
        rw [hx, hy] at hr hlive
        simp at hr hlive
        rw [hr, hlive]

/-- The amended C12 on the store holding "B" and the default: a connection naming
"B" and a plain connection are bound, "B" is promoted, and both connections are
torn down; every count is back at its initial value. -/
theorem C12_pin_balance_witness :
    Option.map Prod.snd
        (conn_run (kernel_B_default, [])
          [ConnOp.bind env_user conn_B.meta_tp]) =
        some [{ conn_B with pm_ops := some pm_B }] ∧
      Option.map (module_refcnt 2) (Option.map Prod.fst
        (conn_run (kernel_B_default, [])
          [ConnOp.bind env_user conn_B.meta_tp])) = some 2 ∧
      ∃ kN, conn_run (kernel_B_default, [])
          [ConnOp.bind env_user conn_B.meta_tp, ConnOp.bind env_user conn_plain.meta_tp,
            ConnOp.registry (Op.set_default env_user "default"),
            ConnOp.unbind { conn_B with pm_ops := some pm_B },
            ConnOp.unbind { conn_plain with pm_ops := some pm_B }] = some (kN, []) ∧
        kN.modules = kernel_B_default.modules :=
  ⟨by decide, by decide, _, rfl,
    ((C12_pin_balance env_user kernel_B_default conn_plain).2.2.2
      [ConnOp.bind env_user conn_B.meta_tp, ConnOp.bind env_user conn_plain.meta_tp,
        ConnOp.registry (Op.set_default env_user "default"),
        ConnOp.unbind { conn_B with pm_ops := some pm_B },
        ConnOp.unbind { conn_plain with pm_ops := some pm_B }] _ [] rfl).2 rfl⟩

/-! ## The resolver: C13 -/

/-- C13, as stated, fails: in a build without module support the block that
calls `request_module` is compiled out, so a privileged requester whose first
lookup misses triggers no loader call. The store holds "A" and "B", the name is
"C", `capable` is true, and the loader log stays empty. -/
theorem C13_counterexample :
    mptcp_pm_find kernel_AB "C" = none ∧ env_nomod.capable = true ∧
      (__mptcp_pm_find_autoload env_nomod kernel_AB "C").2.requested =
        kernel_AB.requested ∧
      (__mptcp_pm_find_autoload env_nomod kernel_AB "C").2.requested = [] := by
  decide

/-- C13, amended. Autoload gating of `__mptcp_pm_find_autoload`: the loader hook
is invoked if and only if module support is configured in (`CONFIG_MODULES`),
the first lookup of the name misses and `capable(CAP_NET_ADMIN)` holds. When it
is invoked, it is invoked once, with the module name "mptcp_" followed by the
name, and the result is that of one more lookup in the state the loader left.
When it is not invoked the state is unchanged and the result is that of the
first lookup: the registered entry when the name is registered, NULL otherwise.
In every case the result is NULL exactly when the name is missing from the
final store. -/
theorem C13_autoload_gating (env : Env) (k : Kernel) (name : String) :
    ((__mptcp_pm_find_autoload env k name).2.requested ≠ k.requested ↔
        env.CONFIG_MODULES = true ∧ mptcp_pm_find k name = none ∧ env.capable = true) ∧
      ((env.CONFIG_MODULES = true ∧ mptcp_pm_find k name = none ∧ env.capable = true) →
        (__mptcp_pm_find_autoload env k name).2 = request_module env k name ∧
          (__mptcp_pm_find_autoload env k name).2.requested =
            k.requested ++ ["mptcp_" ++ name] ∧
          (__mptcp_pm_find_autoload env k name).1 =
            mptcp_pm_find (request_module env k name) name) ∧
      (¬ (env.CONFIG_MODULES = true ∧ mptcp_pm_find k name = none ∧ env.capable = true) →
        __mptcp_pm_find_autoload env k name = (mptcp_pm_find k name, k)) ∧
      (∀ pm, mptcp_pm_find k name = some pm →
        __mptcp_pm_find_autoload env k name = (some pm, k)) ∧
      ((mptcp_pm_find k name = none ∧ env.capable = false) →
        __mptcp_pm_find_autoload env k name = (none, k)) ∧
      ((__mptcp_pm_find_autoload env k name).1 = none ↔
        ∀ e ∈ (__mptcp_pm_find_autoload env k name).2.mptcp_pm_list, e.name ≠ name) := by
  have hcond : ((env.CONFIG_MODULES && ((mptcp_pm_find k name).isNone && env.capable)) = true) ↔
      (env.CONFIG_MODULES = true ∧ mptcp_pm_find k name = none ∧ env.capable = true) := by
    simp [Option.isNone_iff_eq_none]
  have hyes : (env.CONFIG_MODULES = true ∧ mptcp_pm_find k name = none ∧ env.capable = true) →
      __mptcp_pm_find_autoload env k name =
        (mptcp_pm_find (request_module env k name) name, request_module env k name) := by
    intro h
    rw [find_autoload_eq, if_pos (hcond.mpr h)]
  have hnot : ¬ (env.CONFIG_MODULES = true ∧ mptcp_pm_find k name = none ∧ env.capable = true) →
      __mptcp_pm_find_autoload env k name = (mptcp_pm_find k name, k) := by
    intro h
    rw [find_autoload_eq, if_neg (fun hc => h (hcond.mp hc))]
  have hlog : (request_module env k name).requested = k.requested ++ ["mptcp_" ++ name] := rfl
  refine ⟨⟨fun hne => ?_, fun h => ?_⟩, fun h => ?_, hnot, fun pm hpm => ?_, fun h => ?_, ?_⟩
  · by_contra hc
    rw [hnot hc] at hne
    exact hne rfl
  · rw [hyes h, hlog]
    simp
  · rw [hyes h]
    exact ⟨rfl, hlog, rfl⟩
  · exact find_autoload_hit env k name pm hpm
  · rw [hnot (fun hc => by rw [h.2] at hc; cases hc.2.2), h.1]
  · rw [find_autoload_result env k name]
    exact mptcp_pm_find_eq_none_iff _ name

/-! ## Registration without `get_local_id`: C14 -/

/-- C14. For every store and every descriptor whose `get_local_id` is null,
whatever its name, `mptcp_register_path_manager` returns `-EINVAL` and the
state is unchanged. -/
theorem C14_register_null_select (k : Kernel) (pm : mptcp_pm_ops)
    (hnull : pm.get_local_id = none) :
    mptcp_register_path_manager k pm = (ret.neg errno.EINVAL, k) := by
  simp [mptcp_register_path_manager, hnull]

/-- C14 on the store holding "A" and "B" and a descriptor with a null
`get_local_id`, whose name "N" is not in the store. -/
theorem C14_register_null_select_witness :
    pm_null.get_local_id = none ∧ mptcp_pm_find kernel_AB pm_null.name = none ∧
      mptcp_register_path_manager kernel_AB pm_null = (ret.neg errno.EINVAL, kernel_AB) :=
  ⟨rfl, by decide, C14_register_null_select kernel_AB pm_null rfl⟩

/-! ## Falling back to the path manager named "default": C16 -/

theorem module_put_refcnt (mods : Nat → module) (o : Option Nat) (m : Nat) :
    (module_put mods o m).refcnt = (mods m).refcnt - (if o = some m then 1 else 0) ∧
      (module_put mods o m).live = (mods m).live := by
  cases o with
  | none => simp [module_put]
  | some a =>
    by_cases h : m = a
    · subst h
      simp [module_put]
    · have hne : ¬ (a = m) := fun e => h e.symm
      simp [module_put, Function.update_noteq h, hne]

theorem try_module_get_refcnt (mods : Nat → module) (o : Option Nat) (m : Nat)
    (hpin : (try_module_get mods o).1 = true) :
    ((try_module_get mods o).2 m).refcnt = (mods m).refcnt + (if o = some m then 1 else 0) ∧
      ((try_module_get mods o).2 m).live = (mods m).live := by
  cases o with
  | none => simp [try_module_get]
  | some a =>
    rw [try_module_get_some mods a hpin]
    by_cases h : m = a
    · subst h
      simp
    · have hne : ¬ (a = m) := fun e => h e.symm
      simp [Function.update_noteq h, hne]

/-- C16, as stated, fails: the built-in default path manager is owned by
built-in code and has no reference count. On the store holding "B" and the
built-in default path manager, a connection bound to "B" through the socket
option (the count of module 2 is 2) falls back: it is bound to the built-in
default path manager, the count of module 2 is back at 1, and the module table
is the one the release alone gives: no count was raised. -/
theorem C16_counterexample :
    mptcp_pm_find (mptcp_init_path_manager env_user kernel_B_default conn_B).1
        "default" = some mptcp_pm_default ∧
      mptcp_pm_default.owner = none ∧
      (mptcp_init_path_manager env_user kernel_B_default conn_B).2.pm_ops = some pm_B ∧
      Option.map Prod.snd
        (mptcp_fallback_default
          (mptcp_init_path_manager env_user kernel_B_default conn_B).1
          (mptcp_init_path_manager env_user kernel_B_default conn_B).2) =
        some { conn_B with pm_ops := some mptcp_pm_default } ∧
      Option.map Kernel.modules (Option.map Prod.fst
        (mptcp_fallback_default
          (mptcp_init_path_manager env_user kernel_B_default conn_B).1
          (mptcp_init_path_manager env_user kernel_B_default conn_B).2)) =
        some (module_put
          (mptcp_init_path_manager env_user kernel_B_default conn_B).1.modules
          pm_B.owner) ∧
      module_refcnt 2 (mptcp_init_path_manager env_user kernel_B_default conn_B).1 = 2 ∧
      Option.map (module_refcnt 2) (Option.map Prod.fst
        (mptcp_fallback_default
          (mptcp_init_path_manager env_user kernel_B_default conn_B).1
          (mptcp_init_path_manager env_user kernel_B_default conn_B).2)) = some 1 :=
  ⟨by decide, rfl, by decide, by decide, rfl, by decide, by decide⟩

/-- C16, amended. For every store that contains an entry named "default" (`d`
is the first one) whose pin succeeds, as the pin of the built-in default path
manager always does, and every connection bound to a provider whose pin is
counted (the count of its owner, if it has one, is not zero),
`mptcp_fallback_default` leaves the connection bound to `d`, having lowered the
count of the owner of the previously bound provider by one and raised the count
of the owner of `d` by one, where a null owner (built-in code, as for the
built-in default path manager) has no count and nothing is raised or lowered
for it; there is no net change for any module when the two owners are the
same; the store is unchanged. -/
theorem C16_fallback_default (k : Kernel) (mpcb : mptcp_cb) (prev d : mptcp_pm_ops)
    (hbound : mpcb.pm_ops = some prev)
    (hfind : mptcp_pm_find k "default" = some d)
    (hpin : (try_module_get (module_put k.modules prev.owner) d.owner).1 = true)
    (hcnt : ∀ m, prev.owner = some m → 0 < module_refcnt m k) :
    ∃ k1, mptcp_fallback_default k mpcb = some (k1, { mpcb with pm_ops := some d }) ∧
      d ∈ k.mptcp_pm_list ∧ d.name = "default" ∧
      k1.mptcp_pm_list = k.mptcp_pm_list ∧ k1.requested = k.requested ∧
      (∀ m, module_refcnt m k1 + (if prev.owner = some m then 1 else 0) =
          module_refcnt m k + (if d.owner = some m then 1 else 0)) ∧
      (∀ m, (k1.modules m).live = (k.modules m).live) ∧
      (prev.owner = d.owner → k1.modules = k.modules) := by
  have hmem := mptcp_pm_find_mem hfind
  have hfind1 : mptcp_pm_find { k with modules := module_put k.modules prev.owner }
      "default" = some d := hfind
  have hcount : ∀ m,
      ((try_module_get (module_put k.modules prev.owner) d.owner).2 m).refcnt +
          (if prev.owner = some m then 1 else 0) =
        (k.modules m).refcnt + (if d.owner = some m then 1 else 0) ∧
      ((try_module_get (module_put k.modules prev.owner) d.owner).2 m).live =
        (k.modules m).live := by
    intro m
    obtain ⟨hg, hgl⟩ := try_module_get_refcnt _ d.owner m hpin
    obtain ⟨hp, hpl⟩ := module_put_refcnt k.modules prev.owner m
    rw [hg, hgl, hp, hpl]
    refine ⟨?_, rfl⟩
    by_cases ho : prev.owner = some m
    · have hpos := hcnt m ho
      simp only [module_refcnt] at hpos
      simp only [ho, if_true]
      omega
    · simp only [ho, if_false]
      omega
  refine ⟨{ k with modules := (try_module_get (module_put k.modules prev.owner) d.owner).2 },
    ?_, hmem.1, hmem.2, rfl, rfl, fun m => (hcount m).1, fun m => (hcount m).2, ?_⟩
  · simp only [mptcp_fallback_default, mptcp_cleanup_path_manager, hbound, hfind1]
  · intro hsame
    funext m
    obtain ⟨hr, hl⟩ := hcount m
    have hr1 : ((try_module_get (module_put k.modules prev.owner) d.owner).2 m).refcnt =
        (k.modules m).refcnt := by
      have hiff : prev.owner = some m ↔ d.owner = some m := by rw [hsame]
      by_cases ho : prev.owner = some m
      · have hd := hiff.mp ho
        rw [if_pos ho, if_pos hd] at hr
        omega
      · have hd : ¬ d.owner = some m := fun h => ho (hiff.mpr h)
        rw [if_neg ho, if_neg hd] at hr
        omega
    show (try_module_get (module_put k.modules prev.owner) d.owner).2 m = k.modules m
    cases hx : (try_module_get (module_put k.modules prev.owner) d.owner).2 m with
    | mk l1 r1 =>
      cases hy : k.modules m with
      | mk l2 r2 =>
        rw [hx, hy] at hr1 hl
        simp at hr1 hl
        rw [hr1, hl]

/-- The amended C16 on the store holding "B" and the built-in default path
manager, where module 2, the owner of "B", holds the pin of the connection
(count 2): the connection falls back to the built-in default path manager and
the count of module 2 is back at 1. -/
theorem C16_fallback_default_witness :
    (mptcp_init_path_manager env_user kernel_B_default conn_B).2.pm_ops = some pm_B ∧
      Option.map Prod.snd
        (mptcp_fallback_default
          (mptcp_init_path_manager env_user kernel_B_default conn_B).1
          (mptcp_init_path_manager env_user kernel_B_default conn_B).2) =
        some { conn_B with pm_ops := some mptcp_pm_default } ∧
      Option.map (module_refcnt 2) (Option.map Prod.fst
        (mptcp_fallback_default
          (mptcp_init_path_manager env_user kernel_B_default conn_B).1
          (mptcp_init_path_manager env_user kernel_B_default conn_B).2)) = some 1 ∧
      ∃ k1, mptcp_fallback_default
            (mptcp_init_path_manager env_user kernel_B_default conn_B).1
            { conn_B with pm_ops := some pm_B } =
          some (k1, { conn_B with pm_ops := some mptcp_pm_default }) ∧
        mptcp_pm_default ∈
          (mptcp_init_path_manager env_user kernel_B_default conn_B).1.mptcp_pm_list ∧
        mptcp_pm_default.name = "default" ∧
        k1.mptcp_pm_list =
          (mptcp_init_path_manager env_user kernel_B_default conn_B).1.mptcp_pm_list ∧
        k1.requested =
          (mptcp_init_path_manager env_user kernel_B_default conn_B).1.requested ∧
        (∀ m, module_refcnt m k1 + (if pm_B.owner = some m then 1 else 0) =
          module_refcnt m (mptcp_init_path_manager env_user kernel_B_default conn_B).1 +
            (if mptcp_pm_default.owner = some m then 1 else 0)) ∧
        (∀ m, (k1.modules m).live =
          ((mptcp_init_path_manager env_user kernel_B_default conn_B).1.modules m).live) ∧
        (pm_B.owner = mptcp_pm_default.owner →
          k1.modules =
            (mptcp_init_path_manager env_user kernel_B_default conn_B).1.modules) :=
  ⟨by decide, by decide, by decide,
    C16_fallback_default (mptcp_init_path_manager env_user kernel_B_default conn_B).1
      { conn_B with pm_ops := some pm_B } pm_B mptcp_pm_default rfl (by decide) rfl
      (fun m hm => by
        have h2 : m = 2 := by
          have : some 2 = some m := hm
          exact (Option.some.inj this).symm
        subst h2
        decide)⟩

/-! ## Lookup: C17 -/

/-- C17. For every store and name, `mptcp_pm_find` returns NULL if and only if
no entry of the store has exactly that name; otherwise it returns the first
entry, in store order, whose name equals the given name, which is a member of
the store. The function reads the list and returns a pointer: it has no effect
on the state (in the embedding it yields no new state). -/
theorem C17_lookup (k : Kernel) (name : String) :
    (mptcp_pm_find k name = none ↔ ∀ e ∈ k.mptcp_pm_list, e.name ≠ name) ∧
      ((∃ e ∈ k.mptcp_pm_list, e.name = name) →
        ∃ pm, mptcp_pm_find k name = some pm) ∧
      (∀ pm, mptcp_pm_find k name = some pm ↔
        pm.name = name ∧
          ∃ l1 l2, k.mptcp_pm_list = l1 ++ pm :: l2 ∧ ∀ x ∈ l1, x.name ≠ name) ∧
      (∀ pm, mptcp_pm_find k name = some pm → pm ∈ k.mptcp_pm_list) := by
  refine ⟨mptcp_pm_find_eq_none_iff k name, ?_, ?_, fun pm h => (mptcp_pm_find_mem h).1⟩
  · intro hex
    have hs := (mptcp_pm_find_isSome_iff k name).mpr hex
    cases hf : mptcp_pm_find k name with
    | none => simp [hf] at hs
    | some pm => exact ⟨pm, rfl⟩
  · intro pm
    constructor
    · intro h
      exact ⟨(mptcp_pm_find_mem h).2, mptcp_pm_find_split h⟩
    · rintro ⟨hname, l1, l2, hl, hn⟩
      unfold mptcp_pm_find
      rw [List.find?_eq_some]
      exact ⟨by simpa using hname, l1, l2, hl, by simpa using hn⟩

/-! ## Registration and removal as a round trip: C18 -/

theorem erase_appended {l : List mptcp_pm_ops} {pm : mptcp_pm_ops} (h : pm ∉ l) :
    (l ++ [pm]).erase pm = l := by
  rw [List.erase_append_right _ h, List.erase_cons_head, List.append_nil]

/-- C18. Register followed by unregister is a round trip: for every state `k`
and every descriptor with a non-null `get_local_id` whose name is not in the
store, `mptcp_register_path_manager` succeeds and
`mptcp_unregister_path_manager` right after it yields exactly `k`. More
generally `mptcp_unregister_path_manager` of a registered descriptor removes
exactly that entry and keeps all other entries in their previous relative
order. -/
theorem C18_register_unregister (k : Kernel) (pm : mptcp_pm_ops)
    (hsel : pm.get_local_id ≠ none)
    (hnew : ∀ e ∈ k.mptcp_pm_list, e.name ≠ pm.name) :
    (mptcp_register_path_manager k pm).1 = ret.zero ∧
      (mptcp_register_path_manager k pm).2.mptcp_pm_list = k.mptcp_pm_list ++ [pm] ∧
      mptcp_unregister_path_manager (mptcp_register_path_manager k pm).2 pm = some k ∧
      (∀ (k0 : Kernel) (q : mptcp_pm_ops), q ∈ k0.mptcp_pm_list →
        ∃ l1 l2, k0.mptcp_pm_list = l1 ++ q :: l2 ∧ q ∉ l1 ∧
          mptcp_unregister_path_manager k0 q =
            some { k0 with mptcp_pm_list := l1 ++ l2 }) := by
  have hsel1 : pm.get_local_id.isNone = false := by
    cases hg : pm.get_local_id with
    | none => exact absurd hg hsel
    | some f => rfl
  have hf : mptcp_pm_find k pm.name = none := (mptcp_pm_find_eq_none_iff k pm.name).mpr hnew
  have hr : mptcp_register_path_manager k pm =
      (ret.zero, { k with mptcp_pm_list := k.mptcp_pm_list ++ [pm] }) := by
    simp [mptcp_register_path_manager, hsel1, hf]
  have hnotin : pm ∉ k.mptcp_pm_list := fun hm => hnew pm hm rfl
  refine ⟨by rw [hr], by rw [hr], ?_, ?_⟩
  · rw [hr]
    simp [mptcp_unregister_path_manager, erase_appended hnotin]
  · intro k0 q hq
    obtain ⟨l1, l2, hl, hq1⟩ := List.eq_append_cons_of_mem hq
    refine ⟨l1, l2, hl, hq1, ?_⟩
    simp only [mptcp_unregister_path_manager, if_pos hq]
    rw [hl, erase_split hq1]

/-- The round trip of C18 on the store holding "A" and the descriptor "B". -/
theorem C18_register_unregister_witness :
    pm_B.get_local_id ≠ none ∧
      (∀ e ∈ ({ empty_kernel with mptcp_pm_list := [pm_A] } : Kernel).mptcp_pm_list,
        e.name ≠ pm_B.name) ∧
      (mptcp_register_path_manager { empty_kernel with mptcp_pm_list := [pm_A] }
        pm_B).2.mptcp_pm_list = [pm_A, pm_B] ∧
      mptcp_unregister_path_manager
          (mptcp_register_path_manager { empty_kernel with mptcp_pm_list := [pm_A] }
            pm_B).2 pm_B =
        some { empty_kernel with mptcp_pm_list := [pm_A] } :=
  ⟨by decide, by decide, by decide,
    (C18_register_unregister { empty_kernel with mptcp_pm_list := [pm_A] } pm_B
      (by decide) (by decide)).2.2.1⟩

/-! ## Registration leaves the default alone: C19 -/

theorem set_path_manager_kernel (env : Env) (k : Kernel) (mpcb : mptcp_cb)
    (name : String) :
    (mptcp_set_path_manager env k mpcb name).2.1 =
      (__mptcp_pm_find_autoload env k name).2 := by
  unfold mptcp_set_path_manager
  cases hauto : __mptcp_pm_find_autoload env k name with
  | mk found k1 =>
    cases found with
    | none => rfl
    | some p =>
      cases hns : env.ns_capable <;> simp

/-- C19. Registration never changes the default: for every non-empty store and
every descriptor, whether `mptcp_register_path_manager` succeeds or rejects
it, the front entry of the store and the name reported by
`mptcp_get_default_path_manager` are the same before and after the call. The
same holds for `mptcp_unregister_path_manager` of an entry other than the front
entry, for `mptcp_init_path_manager` and for `mptcp_set_path_manager`: what is
left to change the default is `mptcp_set_default_path_manager` and the removal
of the front entry. -/
theorem C19_register_keeps_default (env : Env) (k : Kernel) (pm : mptcp_pm_ops)
    (hne : k.mptcp_pm_list ≠ []) :
    (mptcp_register_path_manager k pm).2.mptcp_pm_list.head? = k.mptcp_pm_list.head? ∧
      mptcp_get_default_path_manager env (mptcp_register_path_manager k pm).2 =
        mptcp_get_default_path_manager env k ∧
      (∀ (q : mptcp_pm_ops) (k1 : Kernel), k.mptcp_pm_list.head? ≠ some q →
        mptcp_unregister_path_manager k q = some k1 →
          k1.mptcp_pm_list.head? = k.mptcp_pm_list.head? ∧
            mptcp_get_default_path_manager env k1 =
              mptcp_get_default_path_manager env k) ∧
      (∀ (env2 : Env) (mpcb : mptcp_cb),
        mptcp_get_default_path_manager env (mptcp_init_path_manager env2 k mpcb).1 =
          mptcp_get_default_path_manager env k) ∧
      (∀ (env2 : Env) (mpcb : mptcp_cb) (name : String),
        mptcp_get_default_path_manager env
            (mptcp_set_path_manager env2 k mpcb name).2.1 =
          mptcp_get_default_path_manager env k) := by
  have hreg := head_of_extension (register_extends k pm) hne
  refine ⟨hreg, get_default_of_head env hreg, ?_, ?_, ?_⟩
  · intro q k1 hq hun
    simp only [mptcp_unregister_path_manager] at hun
    split at hun
    · cases hun
      have hh : (k.mptcp_pm_list.erase q).head? = k.mptcp_pm_list.head? := by
        cases hl : k.mptcp_pm_list with
        | nil => exact absurd hl hne
        | cons a t =>
          have haq : a ≠ q := by
            intro e
            rw [hl, e] at hq
            exact hq rfl
          rw [List.erase_cons_tail (by simpa using haq)]
          rfl
      exact ⟨hh, get_default_of_head env hh⟩
    · cases hun
  · intro env2 mpcb
    exact get_default_of_head env (head_of_extension (init_extends env2 k mpcb) hne)
  · intro env2 mpcb name
    rw [set_path_manager_kernel]
    exact get_default_of_head env
      (head_of_extension (find_autoload_extends env2 k name) hne)

/-- C19 on the store holding "A" and "B": the default is "A" before and after
the registration of a new descriptor, of "B" again, and of a descriptor with a
null `get_local_id`. -/
theorem C19_register_keeps_default_witness :
    kernel_AB.mptcp_pm_list ≠ [] ∧
      mptcp_get_default_path_manager env_user kernel_AB = some "A" ∧
      mptcp_get_default_path_manager env_user
        (mptcp_register_path_manager kernel_AB pm_D).2 = some "A" ∧
      mptcp_get_default_path_manager env_user
        (mptcp_register_path_manager kernel_AB pm_B).2 = some "A" ∧
      mptcp_get_default_path_manager env_user
        (mptcp_register_path_manager kernel_AB pm_null).2 = some "A" ∧
      mptcp_get_default_path_manager env_user
          (mptcp_register_path_manager kernel_AB pm_D).2 =
        mptcp_get_default_path_manager env_user kernel_AB :=
  ⟨by decide, by decide, by decide, by decide, by decide,
    (C19_register_keeps_default env_user kernel_AB pm_D (by decide)).2.1⟩

end MptcpPm
